import Mathlib

/-!
# The libp2p echo example: streams, the buffered line reader and the echo handler

A shallow embedding of `cmd/echo/main.go`.

* A `Stream` is one end of a bidirectional byte channel.  What the remote end
  sends is a script of segments (what successive `Read` calls find available)
  followed by a final condition; what the local end wrote is accumulated in
  `written`; `received` is the history of the bytes handed out by `Read`.
* `bufio.Reader` (`NewReader`, `fill`, `ReadSlice`, `collectFragments`,
  `ReadString`) and `io.ReadAll` are the Go standard library routines that
  `doEcho` and `runSender` call, embedded at the level of byte lists.
* Everything the program obtains from go-libp2p, go-multiaddr and the crypto
  packages is a field of `Lib`.
-/

namespace Echo

/-- One byte. -/
abbrev Byte := Fin 256

/-- The newline byte that `doEcho` passes to `ReadString`. -/
def newline : Byte := 10

/-- Errors that a stream operation itself can report: end of stream, or a
transport failure (reset, timeout, ...) identified by a code. -/
inductive StreamErr
  | EOF
  | failure (code : Nat)
  deriving DecidableEq, Repr

/-- Go `error` values that occur in the program: an error of the stream, the two
sentinel errors of package `bufio`, or an error returned by a library call
(address parsing, dialing, key generation, host construction). -/
inductive Err
  | ofStream (e : StreamErr)
  | ErrBufferFull
  | ErrNoProgress
  | lib (code : Nat)
  deriving DecidableEq, Repr

/-- One end of a `network.Stream`.

* `inbound`: the segments still to be delivered; a `Read` sees the first one.
* `readEnd`: what `Read` reports once `inbound` is exhausted.
* `writeFault`: `none` when writes succeed; `some (k, e)` when a `Write`
  transmits only the first `k` bytes and fails with `e`.
* `remote`: the reaction of the remote end to bytes written successfully: the
  segments it sends in return and, possibly, how its sending side ends.
* `written`, `received`: history of the bytes written to / read from the stream.
* `closes`, `resets`: number of calls of `Close` and of `Reset`. -/
structure Stream where
  inbound : List (List Byte)
  readEnd : StreamErr
  writeFault : Option (Nat × StreamErr)
  remote : List Byte → List (List Byte) × Option StreamErr
  written : List Byte
  received : List Byte
  closes : Nat
  resets : Nat

namespace Stream

/-- Routine `s.Read(p)` with `len(p) = n`: hands out at most `n` bytes of the first
pending segment; with nothing pending it reports `readEnd`. -/
def Read (s : Stream) (n : Nat) : Stream × List Byte × Option StreamErr :=
  match s.inbound with
  | [] => (s, [], some s.readEnd)
  | seg :: rest =>
    if seg.length ≤ n then
      ({ s with inbound := rest, received := s.received ++ seg }, seg, none)
    else
      ({ s with inbound := seg.drop n :: rest, received := s.received ++ seg.take n },
        seg.take n, none)

/-- Routine `s.Write(p)`: on success all of `p` is written and the remote end reacts;
on a fault only a prefix is written and the error is returned. -/
def Write (s : Stream) (p : List Byte) : Stream × Nat × Option StreamErr :=
  match s.writeFault with
  | some (k, e) => ({ s with written := s.written ++ p.take k }, min k p.length, some e)
  | none =>
    let r := s.remote p
    ({ s with written := s.written ++ p, inbound := s.inbound ++ r.1,
              readEnd := r.2.getD s.readEnd }, p.length, none)

/-- Routine `s.Close()`. -/
def Close (s : Stream) : Stream := { s with closes := s.closes + 1 }

/-- Routine `s.Reset()`. -/
def Reset (s : Stream) : Stream := { s with resets := s.resets + 1 }

end Stream

/-! ## Package bufio -/

/-- Size of the buffer allocated by `bufio.NewReader`. -/
def defaultBufSize : Nat := 4096

/-- Number of consecutive empty reads after which `fill` gives up. -/
def maxConsecutiveEmptyReads : Nat := 100

/-- A `bufio.Reader`: the underlying stream, the buffered bytes not yet handed
out (`b.buf[b.r:b.w]`), and the pending read error `b.err`. -/
structure Reader where
  rd : Stream
  buf : List Byte
  err : Option Err

/-- Routine `bufio.NewReader(rd)`. -/
def NewReader (rd : Stream) : Reader := { rd := rd, buf := [], err := none }

/-- Routine `bytes.IndexByte`: index of the first occurrence of `c`. -/
def IndexByte : List Byte → Byte → Option Nat
  | [], _ => none
  | x :: xs, c => if x = c then some 0 else (IndexByte xs c).map (· + 1)

/-- The read loop of `(*Reader).fill`, with `i` attempts left: the buffered
data has been moved to the front of the buffer, so the free space is
`defaultBufSize - b.buf.length`. -/
def fill.loop : Nat → Reader → Reader
  | 0, b => { b with err := some Err.ErrNoProgress }
  | i + 1, b =>
    match b.rd.Read (defaultBufSize - b.buf.length) with
    | (rd1, data, some e) => { rd := rd1, buf := b.buf ++ data, err := some (Err.ofStream e) }
    | (rd1, data, none) =>
      if 0 < data.length then { rd := rd1, buf := b.buf ++ data, err := b.err }
      else fill.loop i { rd := rd1, buf := b.buf ++ data, err := b.err }

/-- Routine `(*Reader).fill`. -/
def fill (b : Reader) : Reader := fill.loop maxConsecutiveEmptyReads b

/-- The loop of `(*Reader).ReadSlice`; `s` is the search start index.  The
result is the reader afterwards, the slice, and the error.  `none` means that
`fuel` iterations did not suffice. -/
def ReadSlice.loop (delim : Byte) : Nat → Nat → Reader → Option (Reader × List Byte × Option Err)
  | 0, _, _ => none
  | fuel + 1, s, b =>
    match IndexByte (b.buf.drop s) delim with
    | some i => some ({ b with buf := b.buf.drop (i + s + 1) }, b.buf.take (i + s + 1), none)
    | none =>
      match b.err with
      | some e => some ({ b with buf := [], err := none }, b.buf, some e)
      | none =>
        if defaultBufSize ≤ b.buf.length then
          some ({ b with buf := [] }, b.buf, some Err.ErrBufferFull)
        else ReadSlice.loop delim fuel b.buf.length (fill b)

/-- Routine `(*Reader).ReadSlice(delim)`.  Every iteration but the last two adds a byte
to a buffer of `defaultBufSize` bytes, which bounds the number of iterations. -/
def ReadSlice (delim : Byte) (b : Reader) : Option (Reader × List Byte × Option Err) :=
  ReadSlice.loop delim (defaultBufSize + 2) 0 b

/-- Number of bytes still to be delivered by a stream. -/
def pendingBytes (s : Stream) : Nat := s.inbound.flatten.length

/-- The loop of `(*Reader).collectFragments`: full buffers are accumulated as
long as `ReadSlice` reports `ErrBufferFull`. -/
def collectFragments.loop (delim : Byte) :
    Nat → Reader → List (List Byte) → Option (Reader × List (List Byte) × List Byte × Option Err)
  | 0, _, _ => none
  | fuel + 1, b, fullBuffers =>
    match ReadSlice delim b with
    | none => none
    | some (b1, frag, none) => some (b1, fullBuffers, frag, none)
    | some (b1, frag, some e) =>
      if e = Err.ErrBufferFull then collectFragments.loop delim fuel b1 (fullBuffers ++ [frag])
      else some (b1, fullBuffers, frag, some e)

/-- Routine `(*Reader).collectFragments(delim)`.  Each full buffer takes
`defaultBufSize` bytes out of the buffered and pending data, which bounds the
number of iterations. -/
def collectFragments (delim : Byte) (b : Reader) :
    Option (Reader × List (List Byte) × List Byte × Option Err) :=
  collectFragments.loop delim (b.buf.length + pendingBytes b.rd + 1) b []

/-- Routine `(*Reader).ReadString(delim)`: the full buffers followed by the final
fragment. -/
def ReadString (delim : Byte) (b : Reader) : Option (Reader × List Byte × Option Err) :=
  match collectFragments delim b with
  | none => none
  | some (b1, full, frag, err) => some (b1, full.flatten ++ frag, err)

/-! ## The echo handler -/

/-- A line written by package `log`. -/
inductive LogEntry
  | text (s : String)
  | error (e : Err)
  | read (line : List Byte)
  | reply (out : List Byte)
  deriving DecidableEq, Repr

/-- Routine `doEcho(s)`: reads a line from the stream through a fresh buffered reader
and writes it back.  Result: the stream afterwards, the lines logged, and the
returned error (`none` is Go `nil`).  The outer `none` means that the loops of
the buffered reader ran out of fuel. -/
def doEcho (s : Stream) : Option (Stream × List LogEntry × Option Err) :=
  let buf := NewReader s
  match ReadString newline buf with
  | none => none
  | some (b1, _, some err) => some (b1.rd, [], some err)
  | some (b1, str, none) =>
    match b1.rd.Write str with
    | (s1, _, err) => some (s1, [LogEntry.read str], err.map Err.ofStream)

/-! ## Package io -/

/-- The loop of `io.ReadAll`: `b` holds the bytes read so far in a slice of
capacity `cap`.  When the slice is full, `append` allocates a larger one; how
much larger is the choice of the Go runtime, `grow cap` bytes beyond the one
byte that is needed.  End of stream is not an error. -/
def ReadAll.loop (grow : Nat → Nat) :
    Nat → Stream → List Byte → Nat → Option (Stream × List Byte × Option Err)
  | 0, _, _, _ => none
  | fuel + 1, r, b, cap =>
    match r.Read (cap - b.length) with
    | (r1, data, some e) =>
      some (r1, b ++ data, if e = StreamErr.EOF then none else some (Err.ofStream e))
    | (r1, data, none) =>
      if (b ++ data).length = cap then ReadAll.loop grow fuel r1 (b ++ data) (cap + 1 + grow cap)
      else ReadAll.loop grow fuel r1 (b ++ data) cap

/-- Number of reads after which a stream is certainly exhausted. -/
def pendingReads (s : Stream) : Nat := pendingBytes s + s.inbound.length

/-- Routine `io.ReadAll(r)`, starting with an empty slice of capacity 512. -/
def ReadAll (grow : Nat → Nat) (r : Stream) : Option (Stream × List Byte × Option Err) :=
  ReadAll.loop grow (pendingReads r + 1) r [] 512

/-! ## The host capability -/

/-- A peer identity (`peer.ID`). -/
structure PeerID where
  id : String
  deriving DecidableEq, Repr

/-- A multiaddress in its binary form. -/
structure Multiaddr where
  bytes : List Byte
  deriving DecidableEq, Repr

/-- A private key. -/
structure PrivKey where
  raw : List Byte
  deriving DecidableEq, Repr

/-- A public key. -/
structure PubKey where
  raw : List Byte
  deriving DecidableEq, Repr

/-- Key types of package `crypto`. -/
inductive KeyType
  | RSA
  | Ed25519
  | Secp256k1
  | ECDSA
  deriving DecidableEq, Repr

/-- A source of random bytes (an `io.Reader` that never ends). -/
abbrev RandReader := Nat → Byte

/-- The random choices that the Go runtime makes during one call of the key
generator, in order. -/
abbrev RuntimeChoices := Nat → Bool

/-- Time-to-live values of the peerstore. -/
inductive TTL
  | PermanentAddrTTL
  | duration (ns : Int)
  deriving DecidableEq, Repr

/-- The value of `peer.AddrInfo`. -/
structure AddrInfo where
  ID : PeerID
  Addrs : List Multiaddr
  deriving DecidableEq, Repr

/-- The options that `makeBasicHost` passes to `libp2p.New`. -/
inductive libp2p.Option
  | ListenAddrStrings (s : List String)
  | Identity (sk : PrivKey)
  | DisableRelay
  | NoSecurity
  deriving DecidableEq, Repr

/-- A stream handler: run on a stream, it leaves the stream in a new state and
writes log lines.  `none` means that the model ran out of fuel. -/
abbrev StreamHandler := Stream → Option (Stream × List LogEntry)

/-- The state of a `host.Host` that the program reads or changes: its
identity, its listen addresses, the handlers registered per protocol
identifier, and the address book. -/
structure Host where
  ID : PeerID
  Addrs : List Multiaddr
  handlers : List (String × StreamHandler)
  peerstore : List (PeerID × List Multiaddr × TTL)

namespace Host

/-- Routine `ha.SetStreamHandler(pid, handler)`: the handler replaces any
handler registered for `pid` before. -/
def SetStreamHandler (ha : Host) (pid : String) (handler : StreamHandler) : Host :=
  { ha with handlers := (pid, handler) :: ha.handlers.filter (fun e => e.1 != pid) }

/-- Routine `ha.Peerstore().AddAddrs(id, addrs, ttl)`. -/
def AddAddrs (ha : Host) (id : PeerID) (addrs : List Multiaddr) (ttl : TTL) : Host :=
  { ha with peerstore := ha.peerstore ++ [(id, addrs, ttl)] }

end Host

/-- The library routines that the program calls, taken as parameters. -/
structure Lib where
  /-- Routine `crypto.GenerateKeyPairWithReader(typ, bits, src)`.  The result is
  not determined by the bytes of `src` alone: RSA generation decides at random,
  at run time, whether to read and drop a byte of `src` before it draws the
  primes.  These choices of one call are the last argument. -/
  GenerateKeyPairWithReader :
    KeyType → Nat → RandReader → RuntimeChoices → Except Err (PrivKey × PubKey)
  /-- The reader `mrand.New(mrand.NewSource(seed))`. -/
  mrandNew : Int → RandReader
  /-- Routine `libp2p.New(opts...)`. -/
  New : List libp2p.Option → Except Err Host
  /-- Routine `ma.NewMultiaddr(s)`. -/
  NewMultiaddr : String → Except Err Multiaddr
  /-- Routine `addr.Encapsulate(o)`, for a multiaddress `o` that is not nil. -/
  Encapsulate : Multiaddr → Multiaddr → Multiaddr
  /-- Routine `addr.String()`. -/
  MultiaddrString : Multiaddr → String
  /-- Routine `id.Pretty()`. -/
  Pretty : PeerID → String
  /-- Routine `peer.AddrInfoFromP2pAddr(m)`. -/
  AddrInfoFromP2pAddr : Multiaddr → Except Err AddrInfo
  /-- Routine `ha.NewStream(ctx, id, pid)`. -/
  NewStream : Host → PeerID → String → Except Err Stream
  /-- Extra capacity that `append` allocates for a full slice of a given capacity. -/
  appendGrowth : Nat → Nat

/-- What the program does to its environment, in order: log lines and calls of
the host capability. -/
inductive Event
  | log (e : LogEntry)
  | New (opts : List libp2p.Option)
  | SetStreamHandler (pid : String)
  | AddAddrs (id : PeerID) (addrs : List Multiaddr) (ttl : TTL)
  | NewStream (id : PeerID) (pid : String)
  deriving DecidableEq, Repr

/-- How a run ends: it returns; it panics; it exits through `log.Fatal`; or it
waits for a cancellation. -/
inductive Exit
  | returned
  | panicked
  | fatal
  | blocked
  deriving DecidableEq, Repr

/-- The outcome of `startListener` or `runSender`: how it ended, what it did,
the host afterwards, and the outbound stream if one was opened. -/
structure Run where
  exit : Exit
  trace : List Event
  host : Host
  stream : Option Stream

/-- The outcome of `main`. -/
structure Process where
  exit : Exit
  trace : List Event
  host : Option Host
  stream : Option Stream

/-! ## The program -/

/-- Go `int` arithmetic: the result of an addition wraps to 64 bits. -/
def wrapInt (x : Int) : Int := (x + 2 ^ 63) % 2 ^ 64 - 2 ^ 63

/-- Routine `makeBasicHost(listenPort, insecure, randseed)`; `entropy` is
`rand.Reader` of package `crypto/rand`, and `choices` are the random choices of
the runtime during this call.  Result: the calls of `libp2p.New` made and the
returned host or error. -/
def makeBasicHost (L : Lib) (entropy : RandReader) (choices : RuntimeChoices) (listenPort : Int)
    (insecure : Bool) (randseed : Int) : List Event × Except Err Host :=
  let r : RandReader := if randseed = 0 then entropy else L.mrandNew randseed
  match L.GenerateKeyPairWithReader KeyType.RSA 2048 r choices with
  | .error err => ([], .error err)
  | .ok (priv, _) =>
    let opts := [libp2p.Option.ListenAddrStrings ["/ip4/127.0.0.1/tcp/" ++ toString listenPort],
      libp2p.Option.Identity priv, libp2p.Option.DisableRelay]
    let opts := if insecure then opts ++ [libp2p.Option.NoSecurity] else opts
    ([Event.New opts], L.New opts)

/-- Routine `getHostAddress(ha)`; `none` is a run-time panic.  The program
discards the error of `NewMultiaddr`, so that `hostAddr` is nil when the string
does not parse.  Indexing an empty address list panics, and so does
`Encapsulate` on a nil multiaddress. -/
def getHostAddress (L : Lib) (ha : Host) : Option String :=
  let hostAddr := (L.NewMultiaddr ("/p2p/" ++ L.Pretty ha.ID)).toOption
  match ha.Addrs[0]? with
  | none => none
  | some addr =>
    match hostAddr with
    | none => none
    | some o => some (L.MultiaddrString (L.Encapsulate addr o))

/-- The handler that `startListener` registers. -/
def listenerHandler : StreamHandler := fun s =>
  match doEcho s with
  | none => none
  | some (s1, lg, some err) =>
    some (s1.Reset, [LogEntry.text "listener received new stream"] ++ lg ++ [LogEntry.error err])
  | some (s1, lg, none) =>
    some (s1.Close, [LogEntry.text "listener received new stream"] ++ lg)

/-- The handler that `runSender` registers. -/
def senderHandler : StreamHandler := fun s =>
  match doEcho s with
  | none => none
  | some (s1, lg, some err) =>
    some (s1.Reset, [LogEntry.text "sender received new stream"] ++ lg ++ [LogEntry.error err])
  | some (s1, lg, none) =>
    some (s1.Close, [LogEntry.text "sender received new stream"] ++ lg)

/-- Routine `startListener(ctx, ha, listenPort, insecure)`. -/
def startListener (L : Lib) (ha : Host) (listenPort : Int) (insecure : Bool) : Run :=
  match getHostAddress L ha with
  | none => { exit := Exit.panicked, trace := [], host := ha, stream := none }
  | some fullAddr =>
    { exit := Exit.returned,
      trace := [Event.log (LogEntry.text ("I am " ++ fullAddr)),
        Event.SetStreamHandler "/echo/1.0.0",
        Event.log (LogEntry.text "listening for connections"),
        Event.log (LogEntry.text
          (if insecure then
            "Now run \"./echo -l " ++ toString (wrapInt (listenPort + 1)) ++ " -d " ++ fullAddr ++
              " -insecure\" on different terminal"
          else
            "Now run \"./echo -l " ++ toString (wrapInt (listenPort + 1)) ++ " -d " ++ fullAddr ++
              "\" on different terminal"))],
      host := ha.SetStreamHandler "/echo/1.0.0" listenerHandler,
      stream := none }

/-- The bytes of `"Hello, world!\n"`. -/
def greeting : List Byte := [72, 101, 108, 108, 111, 44, 32, 119, 111, 114, 108, 100, 33, 10]

/-- Routine `runSender(ctx, ha, targetPeer)`.  The outer `none` means that the
model of `io.ReadAll` ran out of fuel. -/
def runSender (L : Lib) (ha : Host) (targetPeer : String) : Option Run :=
  match getHostAddress L ha with
  | none => some { exit := Exit.panicked, trace := [], host := ha, stream := none }
  | some fullAddr =>
    let ha1 := ha.SetStreamHandler "/echo/1.0.0" senderHandler
    let t0 := [Event.log (LogEntry.text ("I am " ++ fullAddr)), Event.SetStreamHandler "/echo/1.0.0"]
    match L.NewMultiaddr targetPeer with
    | .error err =>
      some { exit := Exit.returned, trace := t0 ++ [Event.log (LogEntry.error err)], host := ha1,
             stream := none }
    | .ok maddr =>
      match L.AddrInfoFromP2pAddr maddr with
      | .error err =>
        some { exit := Exit.returned, trace := t0 ++ [Event.log (LogEntry.error err)], host := ha1,
               stream := none }
      | .ok info =>
        let ha2 := ha1.AddAddrs info.ID info.Addrs TTL.PermanentAddrTTL
        let t1 := t0 ++ [Event.AddAddrs info.ID info.Addrs TTL.PermanentAddrTTL,
          Event.log (LogEntry.text "sender opening stream"), Event.NewStream info.ID "/echo/1.0.0"]
        match L.NewStream ha2 info.ID "/echo/1.0.0" with
        | .error err =>
          some { exit := Exit.returned, trace := t1 ++ [Event.log (LogEntry.error err)],
                 host := ha2, stream := none }
        | .ok s =>
          let t2 := t1 ++ [Event.log (LogEntry.text "sender saying hello")]
          match s.Write greeting with
          | (s1, _, some err) =>
            some { exit := Exit.returned,
                   trace := t2 ++ [Event.log (LogEntry.error (Err.ofStream err))],
                   host := ha2, stream := some s1 }
          | (s1, _, none) =>
            match ReadAll L.appendGrowth s1 with
            | none => none
            | some (s2, _, some err) =>
              some { exit := Exit.returned, trace := t2 ++ [Event.log (LogEntry.error err)],
                     host := ha2, stream := some s2 }
            | some (s2, out, none) =>
              some { exit := Exit.returned, trace := t2 ++ [Event.log (LogEntry.reply out)],
                     host := ha2, stream := some s2 }

/-- The command line as given: `none` stands for a flag that is absent. -/
structure Flags where
  l : Option Int
  d : Option String
  insecure : Option Bool
  seed : Option Int

/-- Routine `main()`.  The context is cancelled only when `main` returns, so
the listener waits for ever. -/
def main (L : Lib) (entropy : RandReader) (choices : RuntimeChoices) (args : Flags) :
    Option Process :=
  let listenF := args.l.getD 0
  let targetF := args.d.getD ""
  let insecureF := args.insecure.getD false
  let seedF := args.seed.getD 0
  if listenF = 0 then
    some { exit := Exit.fatal,
           trace := [Event.log (LogEntry.text "Please provide a port to biend with -l")],
           host := none, stream := none }
  else
    match makeBasicHost L entropy choices listenF insecureF seedF with
    | (t, .error err) =>
      some { exit := Exit.fatal, trace := t ++ [Event.log (LogEntry.error err)], host := none,
             stream := none }
    | (t, .ok ha) =>
      if targetF = "" then
        let r := startListener L ha listenF insecureF
        some { exit := if r.exit = Exit.returned then Exit.blocked else r.exit,
               trace := t ++ r.trace, host := some r.host, stream := r.stream }
      else
        match runSender L ha targetF with
        | none => none
        | some r =>
          some { exit := r.exit, trace := t ++ r.trace, host := some r.host, stream := r.stream }

/-! ## The network between a sender and a listener -/

/-- A fresh stream end with the given pending data. -/
def freshStream (segs : List (List Byte)) (readEnd : StreamErr)
    (remote : List Byte → List (List Byte) × Option StreamErr) : Stream :=
  { inbound := segs, readEnd := readEnd, writeFault := none, remote := remote,
    written := [], received := [], closes := 0, resets := 0 }

/-- The reaction of a remote handler to the bytes `p` written by the dialer:
the handler runs on its end of the stream, on which `p` arrives in the segments
`segIn p`; what it writes comes back in the segments `segOut`; the dialer then
sees a reset if the handler reset the stream and the end of the stream if it
closed it. -/
def serve (h : StreamHandler) (segIn segOut : List Byte → List (List Byte)) (idle : StreamErr)
    (p : List Byte) : List (List Byte) × Option StreamErr :=
  match h (freshStream (segIn p) idle (fun _ => ([], none))) with
  | none => ([], none)
  | some (s1, _) =>
    (segOut s1.written,
      if 0 < s1.resets then some (StreamErr.failure 0)
      else if 0 < s1.closes then some StreamErr.EOF else none)

/-- The outcome of opening a stream for the protocol `pid` to the host
`remoteHost`: the stream is delivered to the handler that the remote host has
registered under exactly `pid`; without one, no stream is delivered. -/
def dial (remoteHost : Host) (segIn segOut : List Byte → List (List Byte)) (idle : StreamErr)
    (pid : String) : Except Err Stream :=
  match remoteHost.handlers.lookup pid with
  | none => .error (Err.lib 0)
  | some h => .ok (freshStream [] idle (serve h segIn segOut idle))

/-! ## Auxiliary predicates used in the statements -/

/-- Every pending segment holds at least one byte: each `Read` with room in its
buffer returns data, as a blocking stream read does. -/
def NonemptySegments (s : Stream) : Prop := ∀ seg ∈ s.inbound, seg ≠ []

instance (s : Stream) : Decidable (NonemptySegments s) := by
  unfold NonemptySegments; infer_instance

/-- The stream `s1` is `s` after reads that handed out the bytes `d`: `d` was
taken from the front of the pending data and nothing else changed. -/
structure Advances (s s1 : Stream) (d : List Byte) : Prop where
  data : s.inbound.flatten = d ++ s1.inbound.flatten
  received : s1.received = s.received ++ d
  readEnd : s1.readEnd = s.readEnd
  writeFault : s1.writeFault = s.writeFault
  remote : s1.remote = s.remote
  written : s1.written = s.written
  closes : s1.closes = s.closes
  resets : s1.resets = s.resets
  nonempty : NonemptySegments s → NonemptySegments s1

/-- A pending error of the buffered reader comes from an exhausted stream, or is
`ErrNoProgress`, which happens only under the condition `Q`. -/
def PendingErrOk (Q : Prop) (b : Reader) : Prop :=
  ∀ e, b.err = some e →
    (e = Err.ofStream b.rd.readEnd ∧ b.rd.inbound = []) ∨ (e = Err.ErrNoProgress ∧ Q)

/-- What one call of `ReadSlice` (or of `collectFragments`) achieves, from the
reader `b` to the reader `b1`, returning `line` and `e`: the bytes `d` taken
from the stream, appended to what was buffered, are the returned bytes followed
by what stays buffered; without error the returned bytes end at the first
delimiter; with an error they hold no delimiter and nothing stays buffered.
`ErrNoProgress` occurs only under the condition `Q`. -/
def SliceResult (delim : Byte) (Q : Prop) (b b1 : Reader) (line : List Byte)
    (e : Option Err) : Prop :=
  ∃ d, Advances b.rd b1.rd d ∧ b.buf ++ d = line ++ b1.buf ∧
    b1.buf.length ≤ defaultBufSize ∧
    match e with
    | none => ∃ L, line = L ++ [delim] ∧ delim ∉ L
    | some x => delim ∉ line ∧ b1.buf = [] ∧ b1.err = none ∧
        ((x = Err.ErrBufferFull ∧ defaultBufSize ≤ line.length) ∨
         (x = Err.ofStream b.rd.readEnd ∧ b1.rd.inbound = []) ∨
         (x = Err.ErrNoProgress ∧ Q))

/-! ## Concrete inputs used to instantiate the theorems -/

/-- A remote end that does not react to what is written. -/
def quiet : List Byte → List (List Byte) × Option StreamErr := fun _ => ([], none)

/-- The line `"hi\n"` arriving in two segments. -/
def exampleLine : Stream := freshStream [[104], [105, 10]] StreamErr.EOF quiet

/-- The bytes `"hi"`, then the end of the stream: no newline arrives. -/
def exampleNoNewline : Stream := freshStream [[104, 105]] StreamErr.EOF quiet

/-- A stream that the remote end closes before sending anything. -/
def exampleClosedAtOnce : Stream := freshStream [] StreamErr.EOF quiet

/-- The two lines `"a\n"` and `"b\n"` arriving in one segment. -/
def exampleTwoLines : Stream := freshStream [[97, 10, 98, 10]] StreamErr.EOF quiet

/-- The line `"a\n"` arriving on a stream whose writes fail after one byte. -/
def exampleWriteFault : Stream :=
  { freshStream [[97, 10]] StreamErr.EOF quiet with writeFault := some (1, StreamErr.failure 7) }

/-- A delivery of bytes in segments of one byte each. -/
def byteSegments (p : List Byte) : List (List Byte) := p.map (fun x => [x])

/-- A delivery of bytes in a single segment. -/
def oneSegment (p : List Byte) : List (List Byte) := if p = [] then [] else [p]

/-- A host with one listen address and no handler. -/
def exampleHost : Host :=
  { ID := { id := "QmExample" }, Addrs := [{ bytes := [4, 127, 0, 0, 1] }], handlers := [],
    peerstore := [] }

/-- A host with one listen address and the empty peer identity. -/
def exampleHostNoID : Host :=
  { ID := { id := "" }, Addrs := [{ bytes := [4, 127, 0, 0, 1] }], handlers := [],
    peerstore := [] }

/-- A host without listen address. -/
def exampleHostNoAddr : Host :=
  { ID := { id := "QmExample" }, Addrs := [], handlers := [], peerstore := [] }

/-- An instance of the library: the key generator reads and drops one byte of
its source when the first choice of the runtime says so, and takes the next two
bytes as the key pair; the `math/rand` reader of a seed counts up from the seed;
every new host is `exampleHost`; an address string parses unless it is empty or
is a `"/p2p/"` without identity; it carries a peer identity when it is longer
than four bytes; and no peer can be reached. -/
def exampleLib : Lib :=
  { GenerateKeyPairWithReader := fun _ _ r c =>
      if c 0 then .ok ({ raw := [r 1] }, { raw := [r 2] })
      else .ok ({ raw := [r 0] }, { raw := [r 1] })
    mrandNew := fun seed i => Fin.ofNat (seed.toNat + i)
    New := fun _ => .ok exampleHost
    NewMultiaddr := fun s =>
      if s = "" ∨ s = "/p2p/" then .error (Err.lib 1)
      else .ok { bytes := s.toList.map (fun c => Fin.ofNat c.toNat) }
    Encapsulate := fun a o => { bytes := a.bytes ++ o.bytes }
    MultiaddrString := fun m => String.mk (m.bytes.map (fun x => Char.ofNat x.val))
    Pretty := fun p => p.id
    AddrInfoFromP2pAddr := fun m =>
      if m.bytes.length < 5 then .error (Err.lib 2)
      else .ok { ID := { id := "QmListener" }, Addrs := [m] }
    NewStream := fun _ _ _ => .error (Err.lib 3)
    appendGrowth := fun c => c }

/-- The library instance in which every peer is a listener started on
`exampleHost`, reached over a network that delivers one byte at a time. -/
def exampleNet : Lib :=
  { exampleLib with
    NewStream := fun _ _ pid =>
      dial (startListener exampleLib exampleHost 4001 false).host byteSegments oneSegment
        (StreamErr.failure 1) pid }

/-- The library instance in which every dialed stream fails on writing. -/
def exampleWriteFailNet : Lib :=
  { exampleLib with
    NewStream := fun _ _ _ =>
      .ok { freshStream [] StreamErr.EOF quiet with writeFault := some (0, StreamErr.failure 7) } }

/-- The library instance in which every dialed stream fails on reading. -/
def exampleReadFailNet : Lib :=
  { exampleLib with
    NewStream := fun _ _ _ => .ok (freshStream [] (StreamErr.failure 9) quiet) }

/-- A target address string that parses in `exampleLib`. -/
def exampleTarget : String := "/p2p/QmListener"

/-- The multiaddress that `exampleLib` parses `exampleTarget` to. -/
def exampleMaddr : Multiaddr := { bytes := exampleTarget.toList.map (fun c => Fin.ofNat c.toNat) }

/-- The peer address that `exampleLib` reads off `exampleMaddr`. -/
def exampleInfo : AddrInfo := { ID := { id := "QmListener" }, Addrs := [exampleMaddr] }

/-- The stream that `exampleWriteFailNet` opens. -/
def exampleFaultyStream : Stream :=
  { freshStream [] StreamErr.EOF quiet with writeFault := some (0, StreamErr.failure 7) }

/-- A source of random bytes that yields the same byte for ever. -/
def constantReader (x : Byte) : RandReader := fun _ => x

/-- A run in which the runtime makes the same choice every time. -/
def constantChoices (x : Bool) : RuntimeChoices := fun _ => x

/-- A command line without `-l`, with the other three flags given. -/
def exampleFlagsNoPort : Flags :=
  { l := none, d := some exampleTarget, insecure := some true, seed := some 42 }

/-- A command line of a sender on port 4002. -/
def exampleFlagsSender : Flags :=
  { l := some 4002, d := some exampleTarget, insecure := none, seed := none }

/-! ## Lemmas: byte search -/

/-- A byte that does not occur is not found. -/
theorem IndexByte_eq_none {xs : List Byte} {c : Byte} (h : c ∉ xs) : IndexByte xs c = none := by
  induction xs with
  | nil => rfl
  | cons x xs ih =>
    have hx : x ≠ c := fun e => h (by simp [e])
    have hxs : c ∉ xs := fun e => h (by simp [e])
    simp [IndexByte, hx, ih hxs]

/-- A byte that is found splits the list at its first occurrence. -/
theorem IndexByte_some {xs : List Byte} {c : Byte} {i : Nat} (h : IndexByte xs c = some i) :
    ∃ L rest, xs = L ++ c :: rest ∧ c ∉ L ∧ L.length = i := by
  induction xs generalizing i with
  | nil => simp [IndexByte] at h
  | cons x xs ih =>
    by_cases hx : x = c
    · simp [IndexByte, hx] at h
      exact ⟨[], xs, by simp [hx], by simp, by simp [h]⟩
    · simp [IndexByte, hx] at h
      obtain ⟨j, hj, rfl⟩ := h
      obtain ⟨L, rest, hxs, hL, hlen⟩ := ih hj
      refine ⟨x :: L, rest, by simp [hxs], ?_, by simp [hlen]⟩
      simp only [List.mem_cons, not_or]
      exact ⟨fun e => hx e.symm, hL⟩

/-- A byte that is not found does not occur. -/
theorem IndexByte_mem {xs : List Byte} {c : Byte} (h : IndexByte xs c = none) : c ∉ xs := by
  induction xs with
  | nil => simp
  | cons x xs ih =>
    by_cases hx : x = c
    · simp [IndexByte, hx] at h
    · simp [IndexByte, hx] at h
      simp only [List.mem_cons, not_or]
      exact ⟨fun e => hx e.symm, ih h⟩

/-- The first occurrence of a byte splits a list in only one way. -/
theorem first_split_unique {c : Byte} {L1 L2 r1 r2 : List Byte}
    (h : L1 ++ c :: r1 = L2 ++ c :: r2) (h1 : c ∉ L1) (h2 : c ∉ L2) : L1 = L2 ∧ r1 = r2 := by
  induction L1 generalizing L2 with
  | nil =>
    cases L2 with
    | nil => simpa using h
    | cons y ys =>
      simp at h
      exact absurd (by simp [h.1]) h2
  | cons x xs ih =>
    cases L2 with
    | nil =>
      simp at h
      exact absurd (by simp [h.1]) h1
    | cons y ys =>
      simp at h
      have hxs : c ∉ xs := fun e => h1 (by simp [e])
      have hys : c ∉ ys := fun e => h2 (by simp [e])
      obtain ⟨e1, e2⟩ := ih h.2 hxs hys
      exact ⟨by simp [h.1, e1], e2⟩

/-! ## Lemmas: reading from a stream -/

/-- Reading nothing leaves the stream as it is. -/
theorem Advances.refl (s : Stream) : Advances s s [] :=
  ⟨by simp, by simp, rfl, rfl, rfl, rfl, rfl, rfl, fun h => h⟩

/-- Successive reads hand out the concatenation of their data. -/
theorem Advances.trans {s s1 s2 : Stream} {d1 d2 : List Byte}
    (h1 : Advances s s1 d1) (h2 : Advances s1 s2 d2) : Advances s s2 (d1 ++ d2) :=
  ⟨by rw [h1.data, h2.data, List.append_assoc],
   by rw [h2.received, h1.received, List.append_assoc],
   h2.readEnd.trans h1.readEnd, h2.writeFault.trans h1.writeFault,
   h2.remote.trans h1.remote, h2.written.trans h1.written,
   h2.closes.trans h1.closes, h2.resets.trans h1.resets,
   fun h => h2.nonempty (h1.nonempty h)⟩

/-- A successful `Read` advances the stream by the data it returns, which fits
the buffer it was given and is not empty when the segments are not. -/
theorem Read_ok {s s1 : Stream} {n : Nat} {data : List Byte}
    (h : s.Read n = (s1, data, none)) :
    Advances s s1 data ∧ data.length ≤ n ∧ (NonemptySegments s → 0 < n → data ≠ []) := by
  unfold Stream.Read at h
  cases hin : s.inbound with
  | nil => simp [hin] at h
  | cons seg rest =>
    simp only [hin] at h
    by_cases hle : seg.length ≤ n
    · simp only [hle, if_true, Prod.mk.injEq, and_true] at h
      obtain ⟨rfl, rfl⟩ := h
      refine ⟨⟨by simp [hin], rfl, rfl, rfl, rfl, rfl, rfl, rfl, ?_⟩, hle, ?_⟩
      · intro hne seg1 hmem
        exact hne seg1 (by simp only [hin]; exact List.mem_cons_of_mem _ hmem)
      · intro hne _
        exact hne _ (by simp [hin])
    · simp only [hle, if_false, Prod.mk.injEq, and_true] at h
      obtain ⟨rfl, rfl⟩ := h
      refine ⟨⟨?_, rfl, rfl, rfl, rfl, rfl, rfl, rfl, ?_⟩, by simp, ?_⟩
      · simp only [hin, List.flatten_cons]
        rw [← List.append_assoc, List.take_append_drop]
      · intro hne seg1 hmem
        simp only [List.mem_cons] at hmem
        rcases hmem with rfl | hmem
        · intro hd
          have := congrArg List.length hd
          rw [List.length_drop, List.length_nil] at this
          omega
        · exact hne seg1 (by simp only [hin]; exact List.mem_cons_of_mem _ hmem)
      · intro _ hn hd
        have := congrArg List.length hd
        rw [List.length_take, List.length_nil] at this
        omega

/-- A failing `Read` leaves the stream as it is, returns no data, and reports
the final condition of an exhausted stream. -/
theorem Read_err {s s1 : Stream} {n : Nat} {data : List Byte} {e : StreamErr}
    (h : s.Read n = (s1, data, some e)) :
    s1 = s ∧ data = [] ∧ e = s.readEnd ∧ s.inbound = [] := by
  unfold Stream.Read at h
  cases hin : s.inbound with
  | nil =>
    simp only [hin, Prod.mk.injEq, Option.some.injEq] at h
    exact ⟨h.1.symm, h.2.1.symm, h.2.2.symm, rfl⟩
  | cons seg rest =>
    simp only [hin] at h
    split at h <;> simp at h

/-! ## Lemmas: the buffered reader -/

/-- One call of `fill` on a reader with room and no pending error: the buffer is
extended by what was read, and either data arrived, or the stream is exhausted
and its final condition is pending, or only empty reads happened. -/
theorem fill_loop_spec (i : Nat) (b : Reader) (hroom : b.buf.length < defaultBufSize)
    (herr : b.err = none) :
    ∃ d, Advances b.rd (fill.loop i b).rd d ∧ (fill.loop i b).buf = b.buf ++ d ∧
      (fill.loop i b).buf.length ≤ defaultBufSize ∧
      (((fill.loop i b).err = none ∧ d ≠ []) ∨
       ((fill.loop i b).err = some (Err.ofStream b.rd.readEnd) ∧ (fill.loop i b).rd.inbound = []) ∨
       ((fill.loop i b).err = some Err.ErrNoProgress ∧ (0 < i → ¬ NonemptySegments b.rd))) := by
  induction i generalizing b with
  | zero =>
    refine ⟨[], Advances.refl _, by simp [fill.loop], ?_, Or.inr (Or.inr ⟨rfl, by simp⟩)⟩
    simp only [fill.loop]
    omega
  | succ i ih =>
    rcases hR : b.rd.Read (defaultBufSize - b.buf.length) with ⟨rd1, data, e⟩
    cases e with
    | some e =>
      have hf : fill.loop (i + 1) b =
          { rd := rd1, buf := b.buf ++ data, err := some (Err.ofStream e) } := by
        simp only [fill.loop, hR]
      obtain ⟨h1, h2, h3, h4⟩ := Read_err hR
      subst h1 h2
      rw [hf]
      refine ⟨[], Advances.refl _, rfl, ?_, Or.inr (Or.inl ⟨by simp [h3], h4⟩)⟩
      simp only [List.append_nil]
      omega
    | none =>
      obtain ⟨hadv, hlen, hne⟩ := Read_ok hR
      by_cases hd : 0 < data.length
      · have hf : fill.loop (i + 1) b = { rd := rd1, buf := b.buf ++ data, err := b.err } := by
          simp only [fill.loop, hR, hd, if_true]
        rw [hf]
        refine ⟨data, hadv, rfl, ?_, Or.inl ⟨herr, ?_⟩⟩
        · simp only [List.length_append]
          omega
        · intro h0
          simp [h0] at hd
      · have hf : fill.loop (i + 1) b =
            fill.loop i { rd := rd1, buf := b.buf ++ data, err := b.err } := by
          simp only [fill.loop, hR, hd, if_false]
        have hd0 : data = [] := by
          cases data with
          | nil => rfl
          | cons x xs => simp at hd
        subst hd0
        rw [hf]
        have hnotne : ¬ NonemptySegments b.rd := fun h => hne h (by omega) rfl
        obtain ⟨d, h1, h2, h3, h4⟩ :=
          ih { rd := rd1, buf := b.buf ++ [], err := b.err } (by simpa using hroom) herr
        refine ⟨d, by simpa using hadv.trans h1, by simpa using h2, h3, ?_⟩
        rcases h4 with h4 | h4 | h4
        · exact Or.inl h4
        · refine Or.inr (Or.inl ⟨?_, h4.2⟩)
          rw [h4.1]
          simp [hadv.readEnd]
        · exact Or.inr (Or.inr ⟨h4.1, fun _ => hnotne⟩)


/-- Transport of a `SliceResult` along an earlier `fill`. -/
theorem SliceResult.after_fill {delim : Byte} {Q : Prop} {b b2 b1 : Reader} {line : List Byte}
    {e : Option Err} {d : List Byte} (hadv : Advances b.rd b2.rd d) (hbuf : b2.buf = b.buf ++ d)
    (h : SliceResult delim Q b2 b1 line e) : SliceResult delim Q b b1 line e := by
  obtain ⟨d1, h1, h2, h3, h4⟩ := h
  refine ⟨d ++ d1, hadv.trans h1, ?_, h3, ?_⟩
  · rw [← List.append_assoc, ← hbuf, h2]
  · cases e with
    | none => exact h4
    | some x =>
      obtain ⟨k1, k2, k3, k4⟩ := h4
      refine ⟨k1, k2, k3, ?_⟩
      rcases k4 with k4 | k4 | k4
      · exact Or.inl k4
      · exact Or.inr (Or.inl ⟨by rw [k4.1, hadv.readEnd], k4.2⟩)
      · exact Or.inr (Or.inr k4)

/-- The loop of `ReadSlice` returns, and its result is a `SliceResult`, when the
fuel covers the room left in the buffer. -/
theorem ReadSlice_loop_spec (delim : Byte) (Q : Prop) (fuel : Nat) : ∀ (s : Nat) (b : Reader),
    delim ∉ b.buf.take s → b.buf.length ≤ defaultBufSize → PendingErrOk Q b →
    (¬ NonemptySegments b.rd → Q) →
    (if b.err = none then defaultBufSize - b.buf.length + 2 else 1) ≤ fuel →
    ∃ b1 line e, ReadSlice.loop delim fuel s b = some (b1, line, e) ∧
      SliceResult delim Q b b1 line e := by
  induction fuel with
  | zero =>
    intro s b _ _ _ _ hfuel
    split at hfuel <;> omega
  | succ fuel ih =>
    intro s b hs hlen hpend hQ hfuel
    cases hidx : IndexByte (b.buf.drop s) delim with
    | some i =>
      obtain ⟨L, rest, hsplit, hL, hLlen⟩ := IndexByte_some hidx
      obtain ⟨A, hA⟩ : ∃ A, A = b.buf.take s := ⟨_, rfl⟩
      rw [← hA] at hs
      have hbuf : b.buf = (A ++ L ++ [delim]) ++ rest := by
        conv_lhs => rw [← List.take_append_drop s b.buf, hsplit, ← hA]
        simp
      have hslen : A.length = s := by
        rw [hA, List.length_take]
        have : s < b.buf.length ∨ b.buf.length ≤ s := by omega
        rcases this with h | h
        · omega
        · rw [List.drop_eq_nil_of_le h] at hsplit
          simp at hsplit
      have hn : i + s + 1 = (A ++ L ++ [delim]).length := by
        simp only [List.length_append, hslen, hLlen, List.length_singleton]
        omega
      have htake : b.buf.take (i + s + 1) = A ++ L ++ [delim] := by
        rw [hn, hbuf]
        exact List.take_left' rfl
      have hdrop : b.buf.drop (i + s + 1) = rest := by
        rw [hn, hbuf]
        exact List.drop_left' rfl
      refine ⟨{ b with buf := b.buf.drop (i + s + 1) }, b.buf.take (i + s + 1), none, ?_, ?_⟩
      · simp only [ReadSlice.loop, hidx]
      · refine ⟨[], Advances.refl _, ?_, ?_, ?_⟩
        · simp
        · simp only [List.length_drop]
          omega
        · refine ⟨A ++ L, ?_, ?_⟩
          · rw [htake]
          · simp only [List.mem_append, not_or]
            exact ⟨hs, hL⟩
    | none =>
      have hnot : delim ∉ b.buf := by
        intro hmem
        rw [← List.take_append_drop s b.buf, List.mem_append] at hmem
        rcases hmem with h | h
        · exact hs h
        · exact IndexByte_mem hidx h
      cases herr : b.err with
      | some e =>
        refine ⟨{ b with buf := [], err := none }, b.buf, some e, ?_, ?_⟩
        · simp only [ReadSlice.loop, hidx, herr]
        · refine ⟨[], Advances.refl _, by simp, by simp, hnot, rfl, rfl, ?_⟩
          rcases hpend e herr with h | h
          · exact Or.inr (Or.inl h)
          · exact Or.inr (Or.inr h)
      | none =>
        by_cases hfull : defaultBufSize ≤ b.buf.length
        · refine ⟨{ b with buf := [] }, b.buf, some Err.ErrBufferFull, ?_, ?_⟩
          · simp only [ReadSlice.loop, hidx, herr, hfull, if_true]
          · exact ⟨[], Advances.refl _, by simp, by simp, hnot, rfl, herr, Or.inl ⟨rfl, hfull⟩⟩
        · have hstep : ReadSlice.loop delim (fuel + 1) s b =
              ReadSlice.loop delim fuel b.buf.length (fill b) := by
            simp only [ReadSlice.loop, hidx, herr, hfull, if_false]
          obtain ⟨d, hadv, hb2, hlen2, hcase⟩ :=
            fill_loop_spec maxConsecutiveEmptyReads b (by omega) herr
          have hs2 : delim ∉ (fill b).buf.take b.buf.length := by
            unfold fill
            rw [hb2, List.take_left' rfl]
            exact hnot
          have hpend2 : PendingErrOk Q (fill b) := by
            intro e he
            unfold fill at he ⊢
            rcases hcase with h | h | h
            · rw [h.1] at he
              cases he
            · rw [h.1] at he
              cases he
              exact Or.inl ⟨by rw [hadv.readEnd], h.2⟩
            · rw [h.1] at he
              cases he
              exact Or.inr ⟨rfl, hQ (h.2 (by decide))⟩
          have hQ2 : ¬ NonemptySegments (fill b).rd → Q :=
            fun hne => hQ (fun h => hne (hadv.nonempty h))
          have hfuel2 : (if (fill b).err = none then defaultBufSize - (fill b).buf.length + 2
              else 1) ≤ fuel := by
            simp only [herr, if_true] at hfuel
            unfold fill
            rcases hcase with h | h | h
            · have hdlen : 0 < d.length := List.length_pos.mpr h.2
              simp only [h.1, if_true, hb2, List.length_append]
              omega
            · simp only [h.1]
              simp
              omega
            · simp only [h.1]
              simp
              omega
          obtain ⟨b1, line, e, hres, hspec⟩ := ih b.buf.length (fill b) hs2 hlen2 hpend2 hQ2 hfuel2
          exact ⟨b1, line, e, hstep.trans hres, hspec.after_fill hadv hb2⟩

/-- Routine `ReadSlice` on a reader without pending error always returns. -/
theorem ReadSlice_spec (delim : Byte) (b : Reader) (hlen : b.buf.length ≤ defaultBufSize)
    (herr : b.err = none) :
    ∃ b1 line e, ReadSlice delim b = some (b1, line, e) ∧
      SliceResult delim (¬ NonemptySegments b.rd) b b1 line e := by
  apply ReadSlice_loop_spec delim _ _ 0 b (by simp) hlen
  · intro e he
    rw [herr] at he
    cases he
  · exact fun h => h
  · simp only [herr, if_true]
    omega

/-- The condition for `ErrNoProgress` of a `SliceResult` can be weakened. -/
theorem SliceResult.mono {delim : Byte} {Q Q1 : Prop} {b b1 : Reader} {line : List Byte}
    {e : Option Err} (hQ : Q → Q1) (h : SliceResult delim Q b b1 line e) :
    SliceResult delim Q1 b b1 line e := by
  obtain ⟨d, h1, h2, h3, h4⟩ := h
  refine ⟨d, h1, h2, h3, ?_⟩
  cases e with
  | none => exact h4
  | some x =>
    obtain ⟨k1, k2, k3, k4⟩ := h4
    refine ⟨k1, k2, k3, ?_⟩
    rcases k4 with k4 | k4 | k4
    · exact Or.inl k4
    · exact Or.inr (Or.inl k4)
    · exact Or.inr (Or.inr ⟨k4.1, hQ k4.2⟩)

/-- The loop of `collectFragments` returns when the fuel covers the buffered and
pending bytes; the full buffers and the final fragment together are what one
unbounded `ReadSlice` would return, and the error is never `ErrBufferFull`. -/
theorem collectFragments_loop_spec (delim : Byte) (Q : Prop) (fuel : Nat) :
    ∀ (b : Reader) (full : List (List Byte)),
    b.err = none → b.buf.length ≤ defaultBufSize → delim ∉ full.flatten →
    (¬ NonemptySegments b.rd → Q) →
    b.buf.length + pendingBytes b.rd + 1 ≤ fuel →
    ∃ b1 full1 frag e, collectFragments.loop delim fuel b full = some (b1, full1, frag, e) ∧
      SliceResult delim Q { rd := b.rd, buf := full.flatten ++ b.buf, err := none } b1
        (full1.flatten ++ frag) e ∧ e ≠ some Err.ErrBufferFull := by
  induction fuel with
  | zero =>
    intro b full _ _ _ _ hfuel
    omega
  | succ fuel ih =>
    intro b full herr hlen hfull hQ hfuel
    obtain ⟨b1, line, e, hres, hspec⟩ := ReadSlice_spec delim b hlen herr
    obtain ⟨d, h1, h2, h3, h4⟩ := hspec
    cases e with
    | none =>
      refine ⟨b1, full, line, none, ?_, ⟨d, h1, ?_, h3, ?_⟩, by simp⟩
      · simp only [collectFragments.loop, hres]
      · simp only [List.append_assoc, h2]
      · obtain ⟨L, hL, hnot⟩ := h4
        refine ⟨full.flatten ++ L, by rw [hL, List.append_assoc], ?_⟩
        simp only [List.mem_append, not_or]
        exact ⟨hfull, hnot⟩
    | some x =>
      obtain ⟨k1, k2, k3, k4⟩ := h4
      by_cases hx : x = Err.ErrBufferFull
      · subst hx
        have hstep : collectFragments.loop delim (fuel + 1) b full =
            collectFragments.loop delim fuel b1 (full ++ [line]) := by
          simp only [collectFragments.loop, hres, if_true]
        have hlinelen : defaultBufSize ≤ line.length := by
          rcases k4 with k4 | k4 | k4
          · exact k4.2
          · cases k4.1
          · cases k4.1
        have hfull1 : delim ∉ (full ++ [line]).flatten := by
          simp only [List.flatten_append, List.flatten_cons, List.flatten_nil, List.append_nil,
            List.mem_append, not_or]
          exact ⟨hfull, k1⟩
        have hcount : b.buf.length + pendingBytes b.rd = line.length + pendingBytes b1.rd := by
          have e1 := congrArg List.length h2
          have e2 := congrArg List.length h1.data
          simp only [List.length_append, k2, List.length_nil] at e1 e2
          unfold pendingBytes
          omega
        have hfuel1 : b1.buf.length + pendingBytes b1.rd + 1 ≤ fuel := by
          rw [k2, List.length_nil]
          unfold defaultBufSize at hlinelen
          omega
        obtain ⟨b2, full2, frag, e, hres2, hspec2, hne2⟩ :=
          ih b1 (full ++ [line]) k3 h3 hfull1 (fun hne => hQ (fun h => hne (h1.nonempty h))) hfuel1
        refine ⟨b2, full2, frag, e, hstep.trans hres2, ?_, hne2⟩
        have hadv : Advances (Reader.mk b.rd (full.flatten ++ b.buf) none).rd
            (Reader.mk b1.rd ((full ++ [line]).flatten ++ b1.buf) none).rd d := h1
        refine SliceResult.after_fill hadv ?_ hspec2
        simp only [List.flatten_append, List.flatten_cons, List.flatten_nil, List.append_nil,
          k2, List.append_assoc]
        rw [h2, k2, List.append_nil]
      · refine ⟨b1, full, line, some x, ?_, ⟨d, h1, ?_, h3, ?_⟩, by simpa using hx⟩
        · simp only [collectFragments.loop, hres, hx, if_false]
        · simp only [List.append_assoc, h2]
        · refine ⟨?_, k2, k3, ?_⟩
          · simp only [List.mem_append, not_or]
            exact ⟨hfull, k1⟩
          · rcases k4 with k4 | k4 | k4
            · exact absurd k4.1 hx
            · exact Or.inr (Or.inl k4)
            · exact Or.inr (Or.inr ⟨k4.1, hQ k4.2⟩)

/-- Routine `ReadString` on a fresh buffered reader always returns: the line up to and
including the first delimiter and no error, or, when the stream ends or makes
no progress before a delimiter, everything that was read and the error. -/
theorem ReadString_spec (delim : Byte) (s : Stream) :
    ∃ b1 str e, ReadString delim (NewReader s) = some (b1, str, e) ∧
      SliceResult delim (¬ NonemptySegments s) (NewReader s) b1 str e ∧
      e ≠ some Err.ErrBufferFull := by
  obtain ⟨b1, full1, frag, e, hres, hspec, hne⟩ :=
    collectFragments_loop_spec delim (¬ NonemptySegments s)
      ((NewReader s).buf.length + pendingBytes (NewReader s).rd + 1) (NewReader s) []
      rfl (by simp [NewReader]) (by simp) (fun h => h) (le_refl _)
  refine ⟨b1, full1.flatten ++ frag, e, ?_, ?_, hne⟩
  · simp only [ReadString, collectFragments, hres]
  · simpa [NewReader] using hspec

/-! ## Lemmas: reading one line -/

/-- When the pending data holds a newline and every read returns data,
`ReadString` returns the bytes up to and including the first newline; the
stream has handed out that line and the bytes `over` that stay in the buffer. -/
theorem ReadString_line (s : Stream) (L rest : List Byte) (hL : newline ∉ L)
    (hne : NonemptySegments s) (hin : s.inbound.flatten = L ++ newline :: rest) :
    ∃ b1, ReadString newline (NewReader s) = some (b1, L ++ [newline], none) ∧
      Advances s b1.rd (L ++ [newline] ++ b1.buf) ∧
      rest = b1.buf ++ b1.rd.inbound.flatten ∧ b1.buf.length ≤ defaultBufSize := by
  obtain ⟨b1, str, e, hres, ⟨d, h1, h2, h3, h4⟩, hbf⟩ := ReadString_spec newline s
  have h2d : d = str ++ b1.buf := by simpa [NewReader] using h2
  have h1s : Advances s b1.rd d := h1
  cases e with
  | none =>
    obtain ⟨L1, hstr, hL1⟩ := h4
    have hdata := h1s.data
    rw [hin, h2d, hstr] at hdata
    have hsplit : L ++ newline :: rest = L1 ++ newline :: (b1.buf ++ b1.rd.inbound.flatten) := by
      rw [hdata]
      simp
    obtain ⟨e1, e2⟩ := first_split_unique hsplit hL hL1
    subst e1
    refine ⟨b1, by rw [hres, hstr], ?_, e2, h3⟩
    rw [← hstr, ← h2d]
    exact h1s
  | some x =>
    exfalso
    obtain ⟨k1, k2, _, k4⟩ := h4
    rcases k4 with k4 | k4 | k4
    · exact hbf (by rw [k4.1])
    · have hdata := h1s.data
      rw [hin, h2d, k2, k4.2] at hdata
      apply k1
      have : newline ∈ L ++ newline :: rest := by simp
      rw [hdata] at this
      simpa using this
    · exact k4.2 hne

/-- When the pending data holds no newline, `ReadString` fails, with the final
condition of the stream or with `ErrNoProgress`; the stream is only read. -/
theorem ReadString_no_newline (s : Stream) (h : newline ∉ s.inbound.flatten) :
    ∃ b1 str e d, ReadString newline (NewReader s) = some (b1, str, some e) ∧
      Advances s b1.rd d ∧
      (e = Err.ofStream s.readEnd ∨ (e = Err.ErrNoProgress ∧ ¬ NonemptySegments s)) := by
  obtain ⟨b1, str, e, hres, ⟨d, h1, h2, h3, h4⟩, hbf⟩ := ReadString_spec newline s
  have h2d : d = str ++ b1.buf := by simpa [NewReader] using h2
  have h1s : Advances s b1.rd d := h1
  cases e with
  | none =>
    exfalso
    obtain ⟨L1, hstr, _⟩ := h4
    apply h
    rw [h1s.data, h2d, hstr]
    simp
  | some x =>
    refine ⟨b1, str, x, d, hres, h1s, ?_⟩
    rcases h4.2.2.2 with k4 | k4 | k4
    · exact absurd (by rw [k4.1]) hbf
    · exact Or.inl k4.1
    · exact Or.inr k4

/-- Routine `doEcho` returns for every stream. -/
theorem doEcho_total (s : Stream) : ∃ s1 lg e, doEcho s = some (s1, lg, e) := by
  obtain ⟨b1, str, e, hres, _, _⟩ := ReadString_spec newline s
  cases e with
  | none =>
    simp only [doEcho, hres]
    exact ⟨_, _, _, rfl⟩
  | some x =>
    simp only [doEcho, hres]
    exact ⟨_, _, _, rfl⟩

/-! ## The echo handler: claims -/

/-- C1: for every byte sequence `L` without a newline byte, when the stream
delivers `L` followed by a newline (in segments of any sizes, each read
returning data) and the write succeeds, `doEcho` logs the line, appends exactly
`L` followed by the newline to what was written on the same stream, and returns
no error. -/
theorem doEcho_echoes_line (s : Stream) (L : List Byte) (hL : newline ∉ L)
    (hne : NonemptySegments s) (hin : s.inbound.flatten = L ++ [newline])
    (hw : s.writeFault = none) :
    ∃ s1, doEcho s = some (s1, [LogEntry.read (L ++ [newline])], none) ∧
      s1.written = s.written ++ (L ++ [newline]) ∧
      s1.closes = s.closes ∧ s1.resets = s.resets := by
  obtain ⟨b1, hres, hadv, _, _⟩ := ReadString_line s L [] hL hne hin
  have hw1 : b1.rd.writeFault = none := by rw [hadv.writeFault, hw]
  refine ⟨(b1.rd.Write (L ++ [newline])).1, ?_, ?_, ?_, ?_⟩
  · simp only [doEcho, hres, Stream.Write, hw1]
    rfl
  · simp only [Stream.Write, hw1, hadv.written]
  · simp only [Stream.Write, hw1, hadv.closes]
  · simp only [Stream.Write, hw1, hadv.resets]

/-- C2: whenever the buffered read of `doEcho` fails, `doEcho` returns that
error, logs nothing, and leaves the bytes written on the stream unchanged: the
write is not attempted.  The read does fail on every stream whose pending data
holds no newline, whatever its final condition (end of stream included) and
however the data is segmented. -/
theorem doEcho_read_failure (s : Stream) :
    (∀ b1 str e, ReadString newline (NewReader s) = some (b1, str, some e) →
      ∃ s1, doEcho s = some (s1, [], some e) ∧ s1.written = s.written) ∧
    (newline ∉ s.inbound.flatten →
      ∃ s1 e, doEcho s = some (s1, [], some e) ∧ s1.written = s.written ∧
        (e = Err.ofStream s.readEnd ∨ (e = Err.ErrNoProgress ∧ ¬ NonemptySegments s))) := by
  refine ⟨?_, ?_⟩
  · intro b1 str e hres
    obtain ⟨b2, str2, e2, hres2, ⟨d, hadv, _⟩, _⟩ := ReadString_spec newline s
    rw [hres] at hres2
    simp only [Option.some.injEq, Prod.mk.injEq] at hres2
    obtain ⟨rfl, _, _⟩ := hres2
    have hadv1 : Advances s b1.rd d := hadv
    exact ⟨b1.rd, by simp only [doEcho, hres], hadv1.written⟩
  · intro h
    obtain ⟨b1, str, e, d, hres, hadv, he⟩ := ReadString_no_newline s h
    exact ⟨b1.rd, e, by simp only [doEcho, hres], hadv.written, he⟩

/-! ## Lemmas: reading until the end of the stream -/

/-- A successful `Read` into a buffer with room takes a segment or at least one
byte off the pending data. -/
theorem Read_ok_pendingReads {s s1 : Stream} {n : Nat} {data : List Byte}
    (h : s.Read n = (s1, data, none)) (hn : 0 < n) : pendingReads s1 < pendingReads s := by
  unfold Stream.Read at h
  cases hin : s.inbound with
  | nil => simp [hin] at h
  | cons seg rest =>
    simp only [hin] at h
    by_cases hle : seg.length ≤ n
    · simp only [hle, if_true, Prod.mk.injEq, and_true] at h
      obtain ⟨rfl, rfl⟩ := h
      simp only [pendingReads, pendingBytes, hin, List.flatten_cons, List.length_append,
        List.length_cons]
      omega
    · simp only [hle, if_false, Prod.mk.injEq, and_true] at h
      obtain ⟨rfl, rfl⟩ := h
      simp only [pendingReads, pendingBytes, hin, List.flatten_cons, List.length_append,
        List.length_cons, List.length_drop]
      omega

/-- The loop of `io.ReadAll` returns when the fuel covers the pending reads: it
returns everything that was pending, and as error the final condition of the
stream unless that is the end of the stream. -/
theorem ReadAll_loop_spec (grow : Nat → Nat) (fuel : Nat) :
    ∀ (r : Stream) (b : List Byte) (cap : Nat), b.length < cap → pendingReads r + 1 ≤ fuel →
    ∃ r1, ReadAll.loop grow fuel r b cap =
        some (r1, b ++ r.inbound.flatten,
          if r.readEnd = StreamErr.EOF then none else some (Err.ofStream r.readEnd)) ∧
      Advances r r1 r.inbound.flatten ∧ r1.inbound = [] := by
  induction fuel with
  | zero =>
    intro r b cap _ hfuel
    omega
  | succ fuel ih =>
    intro r b cap hcap hfuel
    rcases hR : r.Read (cap - b.length) with ⟨r1, data, e⟩
    cases e with
    | some e =>
      have hstep : ReadAll.loop grow (fuel + 1) r b cap =
          some (r1, b ++ data, if e = StreamErr.EOF then none else some (Err.ofStream e)) := by
        simp only [ReadAll.loop, hR]
      obtain ⟨h1, h2, h3, h4⟩ := Read_err hR
      subst h1 h2 h3
      refine ⟨r1, ?_, ?_, h4⟩
      · rw [hstep, h4]
        simp
      · rw [h4]
        exact Advances.refl r1
    | none =>
      obtain ⟨hadv, hlen, _⟩ := Read_ok hR
      have hmeasure := Read_ok_pendingReads hR (by omega)
      by_cases hfull : (b ++ data).length = cap
      · have hstep : ReadAll.loop grow (fuel + 1) r b cap =
            ReadAll.loop grow fuel r1 (b ++ data) (cap + 1 + grow cap) := by
          simp only [ReadAll.loop, hR, hfull, if_true]
        obtain ⟨r2, hres, hadv2, hin2⟩ := ih r1 (b ++ data) (cap + 1 + grow cap) (by omega) (by omega)
        refine ⟨r2, ?_, ?_, hin2⟩
        · rw [hstep, hres, hadv.data, hadv.readEnd, List.append_assoc]
        · rw [hadv.data]
          exact hadv.trans hadv2
      · have hstep : ReadAll.loop grow (fuel + 1) r b cap =
            ReadAll.loop grow fuel r1 (b ++ data) cap := by
          simp only [ReadAll.loop, hR, hfull, if_false]
        have hroom : (b ++ data).length < cap := by
          simp only [List.length_append] at hfull ⊢
          omega
        obtain ⟨r2, hres, hadv2, hin2⟩ := ih r1 (b ++ data) cap hroom (by omega)
        refine ⟨r2, ?_, ?_, hin2⟩
        · rw [hstep, hres, hadv.data, hadv.readEnd, List.append_assoc]
        · rw [hadv.data]
          exact hadv.trans hadv2

/-- Routine `io.ReadAll` always returns. -/
theorem ReadAll_spec (grow : Nat → Nat) (r : Stream) :
    ∃ r1, ReadAll grow r =
        some (r1, r.inbound.flatten,
          if r.readEnd = StreamErr.EOF then none else some (Err.ofStream r.readEnd)) ∧
      Advances r r1 r.inbound.flatten ∧ r1.inbound = [] := by
  obtain ⟨r1, h1, h2, h3⟩ :=
    ReadAll_loop_spec grow (pendingReads r + 1) r [] 512 (by simp) (le_refl _)
  exact ⟨r1, by simpa [ReadAll] using h1, h2, h3⟩

/-! ## Lemmas: the program -/

/-- The result of `doEcho` on a stream whose pending data holds a newline: the
line is read, logged and handed to `Write`. -/
theorem doEcho_of_line (s : Stream) (L rest : List Byte) (hL : newline ∉ L)
    (hne : NonemptySegments s) (hin : s.inbound.flatten = L ++ newline :: rest) :
    ∃ b1 : Reader, Advances s b1.rd (L ++ [newline] ++ b1.buf) ∧
      rest = b1.buf ++ b1.rd.inbound.flatten ∧ b1.buf.length ≤ defaultBufSize ∧
      doEcho s = some ((b1.rd.Write (L ++ [newline])).1, [LogEntry.read (L ++ [newline])],
        (b1.rd.Write (L ++ [newline])).2.2.map Err.ofStream) := by
  obtain ⟨b1, hres, hadv, hrest, hlen⟩ := ReadString_line s L rest hL hne hin
  exact ⟨b1, hadv, hrest, hlen, by simp only [doEcho, hres]⟩

/-- The host address of a host with a first listen address and an identity
that parses. -/
theorem getHostAddress_cons (L : Lib) (ha : Host) (addr : Multiaddr) (rest : List Multiaddr)
    (m : Multiaddr) (h : ha.Addrs = addr :: rest)
    (hm : L.NewMultiaddr ("/p2p/" ++ L.Pretty ha.ID) = .ok m) :
    getHostAddress L ha = some (L.MultiaddrString (L.Encapsulate addr m)) := by
  simp [getHostAddress, h, hm, Except.toOption]

/-- Indexing the empty address list panics. -/
theorem getHostAddress_nil (L : Lib) (ha : Host) (h : ha.Addrs = []) :
    getHostAddress L ha = none := by
  simp [getHostAddress, h]

/-- Encapsulating the nil multiaddress of an identity that does not parse
panics. -/
theorem getHostAddress_unparsed (L : Lib) (ha : Host) (e : Err)
    (hm : L.NewMultiaddr ("/p2p/" ++ L.Pretty ha.ID) = .error e) :
    getHostAddress L ha = none := by
  cases hA : ha.Addrs with
  | nil => exact getHostAddress_nil L ha hA
  | cons addr rest => simp [getHostAddress, hA, hm, Except.toOption]

/-- A host with a listen address and an identity that parses has a host
address. -/
theorem getHostAddress_some (L : Lib) (ha : Host) (h : ha.Addrs ≠ [])
    (hid : ∃ m, L.NewMultiaddr ("/p2p/" ++ L.Pretty ha.ID) = .ok m) :
    ∃ a, getHostAddress L ha = some a := by
  obtain ⟨m, hm⟩ := hid
  cases hA : ha.Addrs with
  | nil => exact absurd hA h
  | cons addr rest => exact ⟨_, getHostAddress_cons L ha addr rest m hA hm⟩

/-- A handler is found under the identifier it was registered with. -/
theorem lookup_SetStreamHandler (ha : Host) (pid : String) (h : StreamHandler) :
    (ha.SetStreamHandler pid h).handlers.lookup pid = some h := by
  simp [Host.SetStreamHandler, List.lookup]

/-- How the two registered handlers end a stream, in terms of `doEcho`. -/
theorem handler_of_doEcho (h : StreamHandler) (hh : h = listenerHandler ∨ h = senderHandler)
    (s s1 : Stream) (lg : List LogEntry) (e : Option Err) (hd : doEcho s = some (s1, lg, e)) :
    ∃ lg2, h s = some (if e = none then s1.Close else s1.Reset, lg2) ∧
      (∀ x, e = some x → LogEntry.error x ∈ lg2) := by
  rcases hh with rfl | rfl
  · cases e with
    | none => exact ⟨_, by simp only [listenerHandler, hd]; rfl, by simp⟩
    | some x => exact ⟨_, by simp only [listenerHandler, hd]; rfl, by simp⟩
  · cases e with
    | none => exact ⟨_, by simp only [senderHandler, hd]; rfl, by simp⟩
    | some x => exact ⟨_, by simp only [senderHandler, hd]; rfl, by simp⟩

/-- Delivery byte by byte keeps the bytes. -/
theorem byteSegments_flatten (p : List Byte) : (byteSegments p).flatten = p := by
  induction p with
  | nil => rfl
  | cons x xs ih =>
    simp only [byteSegments, List.map_cons, List.flatten_cons] at ih ⊢
    rw [ih]
    rfl

/-- Delivery byte by byte has no empty segment. -/
theorem byteSegments_nonempty (p : List Byte) : ∀ seg ∈ byteSegments p, seg ≠ [] := by
  intro seg hseg
  simp only [byteSegments, List.mem_map] at hseg
  obtain ⟨x, _, rfl⟩ := hseg
  simp

/-- Delivery in one segment keeps the bytes. -/
theorem oneSegment_flatten (p : List Byte) : (oneSegment p).flatten = p := by
  unfold oneSegment
  split
  · next h => simp [h]
  · simp

/-- Writing neither closes nor resets the stream. -/
theorem Write_frame (s : Stream) (p : List Byte) :
    (s.Write p).1.closes = s.closes ∧ (s.Write p).1.resets = s.resets := by
  unfold Stream.Write
  cases s.writeFault with
  | none => exact ⟨rfl, rfl⟩
  | some f => exact ⟨rfl, rfl⟩

/-- Routine `doEcho` neither closes nor resets the stream. -/
theorem doEcho_frame (s s1 : Stream) (lg : List LogEntry) (e : Option Err)
    (h : doEcho s = some (s1, lg, e)) : s1.closes = s.closes ∧ s1.resets = s.resets := by
  obtain ⟨b1, str, e1, hres, ⟨d, hadv, _⟩, _⟩ := ReadString_spec newline s
  have hadv1 : Advances s b1.rd d := hadv
  cases e1 with
  | none =>
    simp only [doEcho, hres, Option.some.injEq, Prod.mk.injEq] at h
    obtain ⟨rfl, _, _⟩ := h
    obtain ⟨h1, h2⟩ := Write_frame b1.rd str
    exact ⟨h1.trans hadv1.closes, h2.trans hadv1.resets⟩
  | some x =>
    simp only [doEcho, hres, Option.some.injEq, Prod.mk.injEq] at h
    obtain ⟨rfl, _, _⟩ := h
    exact ⟨hadv1.closes, hadv1.resets⟩

/-- What `runSender` does on a host with a listen address and an identity that
parses: it returns, the
host carries the sender handler, and the outbound stream, if one was opened, is
the stream that `NewStream` returned, neither closed nor reset. -/
theorem runSender_spec (L : Lib) (ha : Host) (targetPeer : String) (haddr : ha.Addrs ≠ [])
    (hid : ∃ m, L.NewMultiaddr ("/p2p/" ++ L.Pretty ha.ID) = .ok m) :
    ∃ r, runSender L ha targetPeer = some r ∧ r.exit = Exit.returned ∧
      r.host.handlers = (ha.SetStreamHandler "/echo/1.0.0" senderHandler).handlers ∧
      (∀ s, r.stream = some s → ∃ s0 h id pid,
        L.NewStream h id pid = .ok s0 ∧ s.closes = s0.closes ∧ s.resets = s0.resets) ∧
      (∃ entry, r.trace.getLast? = some (Event.log entry) ∧
        ((∃ out, entry = LogEntry.reply out) ∨ ∃ e, entry = LogEntry.error e)) := by
  obtain ⟨a, hga⟩ := getHostAddress_some L ha haddr hid
  cases h1 : L.NewMultiaddr targetPeer with
  | error err =>
    simp only [runSender, hga, h1]
    exact ⟨_, rfl, rfl, rfl, by simp, by simp⟩
  | ok maddr =>
    cases h2 : L.AddrInfoFromP2pAddr maddr with
    | error err =>
      simp only [runSender, hga, h1, h2]
      exact ⟨_, rfl, rfl, rfl, by simp, by simp⟩
    | ok info =>
      cases h3 : L.NewStream ((ha.SetStreamHandler "/echo/1.0.0" senderHandler).AddAddrs info.ID
          info.Addrs TTL.PermanentAddrTTL) info.ID "/echo/1.0.0" with
      | error err =>
        simp only [runSender, hga, h1, h2, h3]
        exact ⟨_, rfl, rfl, rfl, by simp, by simp⟩
      | ok s0 =>
        rcases hW : s0.Write greeting with ⟨s1, n, we⟩
        have hWf := Write_frame s0 greeting
        rw [hW] at hWf
        cases we with
        | some werr =>
          simp only [runSender, hga, h1, h2, h3, hW]
          refine ⟨_, rfl, rfl, rfl, ?_, by simp⟩
          intro s hs
          simp only [Option.some.injEq] at hs
          subst hs
          exact ⟨s0, _, _, _, h3, hWf.1, hWf.2⟩
        | none =>
          obtain ⟨s2, hRA, hadv, _⟩ := ReadAll_spec L.appendGrowth s1
          by_cases hend : s1.readEnd = StreamErr.EOF
          · simp only [hend, if_true] at hRA
            simp only [runSender, hga, h1, h2, h3, hW, hRA]
            refine ⟨_, rfl, rfl, rfl, ?_, by simp⟩
            intro s hs
            simp only [Option.some.injEq] at hs
            subst hs
            exact ⟨s0, _, _, _, h3, hadv.closes.trans hWf.1, hadv.resets.trans hWf.2⟩
          · simp only [hend, if_false] at hRA
            simp only [runSender, hga, h1, h2, h3, hW, hRA]
            refine ⟨_, rfl, rfl, rfl, ?_, by simp⟩
            intro s hs
            simp only [Option.some.injEq] at hs
            subst hs
            exact ⟨s0, _, _, _, h3, hadv.closes.trans hWf.1, hadv.resets.trans hWf.2⟩

/-! ## Claims about the handlers -/

/-- C3: for the handler that `startListener` registers and for the one that
`runSender` registers under `"/echo/1.0.0"` (on a host on which they do not
panic: it has a listen address and its identity parses), run on any stream: `doEcho`
returns, the handler calls `Close` once and `Reset` never when `doEcho` returns
no error, and `Reset` once and `Close` never when it returns an error; when no
newline arrives before the end of the stream, `doEcho` returns an error, which
is logged, and the stream is reset and not closed. -/
theorem handler_closes_or_resets (L : Lib) (ha : Host) (listenPort : Int) (insecure : Bool)
    (targetPeer : String) (h : StreamHandler) (s : Stream) (haddr : ha.Addrs ≠ [])
    (hid : ∃ m, L.NewMultiaddr ("/p2p/" ++ L.Pretty ha.ID) = .ok m)
    (hreg : (startListener L ha listenPort insecure).host.handlers.lookup "/echo/1.0.0" = some h ∨
      ∃ r, runSender L ha targetPeer = some r ∧ r.host.handlers.lookup "/echo/1.0.0" = some h) :
    ∃ s1 lg e s2 lg2, doEcho s = some (s1, lg, e) ∧ h s = some (s2, lg2) ∧
      s2.closes = s.closes + (if e = none then 1 else 0) ∧
      s2.resets = s.resets + (if e = none then 0 else 1) ∧
      (∀ x, e = some x → LogEntry.error x ∈ lg2) ∧
      (newline ∉ s.inbound.flatten →
        e ≠ none ∧ s2.resets = s.resets + 1 ∧ s2.closes = s.closes) := by
  have hh : h = listenerHandler ∨ h = senderHandler := by
    obtain ⟨a, hga⟩ := getHostAddress_some L ha haddr hid
    rcases hreg with hreg | ⟨r, hr, hreg⟩
    · simp only [startListener, hga, lookup_SetStreamHandler, Option.some.injEq] at hreg
      exact Or.inl hreg.symm
    · obtain ⟨r1, hr1, _, hhand, _, _⟩ := runSender_spec L ha targetPeer haddr hid
      rw [hr] at hr1
      cases hr1
      have hl := lookup_SetStreamHandler ha "/echo/1.0.0" senderHandler
      rw [← hhand, hreg] at hl
      exact Or.inr (Option.some.inj hl)
  obtain ⟨s1, lg, e, hd⟩ := doEcho_total s
  obtain ⟨hc, hr⟩ := doEcho_frame s s1 lg e hd
  obtain ⟨lg2, hh2, hlog⟩ := handler_of_doEcho h hh s s1 lg e hd
  have key : (if e = none then s1.Close else s1.Reset).closes
        = s.closes + (if e = none then 1 else 0) ∧
      (if e = none then s1.Close else s1.Reset).resets
        = s.resets + (if e = none then 0 else 1) := by
    cases e with
    | none => simp [Stream.Close, hc, hr]
    | some x => simp [Stream.Reset, hc, hr]
  refine ⟨s1, lg, e, _, lg2, hd, hh2, key.1, key.2, hlog, ?_⟩
  intro hnl
  obtain ⟨s3, e3, hd3, _, _⟩ : ∃ s3 e3, doEcho s = some (s3, [], some e3) ∧ s3.written = s.written ∧
      (e3 = Err.ofStream s.readEnd ∨ (e3 = Err.ErrNoProgress ∧ ¬ NonemptySegments s)) := by
    obtain ⟨b1, str, e1, d, hres, hadv, he⟩ := ReadString_no_newline s hnl
    exact ⟨b1.rd, e1, by simp only [doEcho, hres], hadv.written, he⟩
  rw [hd] at hd3
  simp only [Option.some.injEq, Prod.mk.injEq] at hd3
  obtain ⟨_, _, he⟩ := hd3
  subst he
  exact ⟨by simp, by simpa using key.2, by simpa using key.1⟩

/-- The echo of `"hi\n"` arriving in two segments. -/
theorem doEcho_echoes_line_witness :
    newline ∉ ([104, 105] : List Byte) ∧ NonemptySegments exampleLine ∧
    exampleLine.inbound.flatten = [104, 105] ++ [newline] ∧ exampleLine.writeFault = none ∧
    ∃ s1, doEcho exampleLine = some (s1, [LogEntry.read ([104, 105] ++ [newline])], none) ∧
      s1.written = exampleLine.written ++ ([104, 105] ++ [newline]) ∧
      s1.closes = exampleLine.closes ∧ s1.resets = exampleLine.resets :=
  ⟨by decide, by decide, by decide, rfl,
    doEcho_echoes_line exampleLine [104, 105] (by decide) (by decide) (by decide) rfl⟩

/-- The failure of `doEcho` on `"hi"` followed by the end of the stream. -/
theorem doEcho_read_failure_witness :
    newline ∉ exampleNoNewline.inbound.flatten ∧
    ∃ s1 e, doEcho exampleNoNewline = some (s1, [], some e) ∧
      s1.written = exampleNoNewline.written ∧
      (e = Err.ofStream exampleNoNewline.readEnd ∨
        (e = Err.ErrNoProgress ∧ ¬ NonemptySegments exampleNoNewline)) :=
  ⟨by decide, (doEcho_read_failure exampleNoNewline).2 (by decide)⟩

/-- The listener handler on a stream that the remote end closes at once. -/
theorem handler_closes_or_resets_witness :
    exampleHost.Addrs ≠ [] ∧
    (∃ m, exampleLib.NewMultiaddr ("/p2p/" ++ exampleLib.Pretty exampleHost.ID) = .ok m) ∧
    (startListener exampleLib exampleHost 4001 false).host.handlers.lookup "/echo/1.0.0"
      = some listenerHandler ∧
    ∃ s1 lg e s2 lg2, doEcho exampleClosedAtOnce = some (s1, lg, e) ∧
      listenerHandler exampleClosedAtOnce = some (s2, lg2) ∧
      s2.closes = exampleClosedAtOnce.closes + (if e = none then 1 else 0) ∧
      s2.resets = exampleClosedAtOnce.resets + (if e = none then 0 else 1) ∧
      (∀ x, e = some x → LogEntry.error x ∈ lg2) ∧
      (newline ∉ exampleClosedAtOnce.inbound.flatten →
        e ≠ none ∧ s2.resets = exampleClosedAtOnce.resets + 1 ∧
          s2.closes = exampleClosedAtOnce.closes) :=
  ⟨by decide, ⟨_, rfl⟩, rfl,
    handler_closes_or_resets exampleLib exampleHost 4001 false "" listenerHandler
      exampleClosedAtOnce (by decide) ⟨_, rfl⟩ (Or.inl rfl)⟩

/-- C4, as stated, fails: when `"a\n"` and `"b\n"` arrive in one segment, one
`doEcho` echoes `"a\n"` only, but it has taken all four bytes from the stream:
the buffered reader read ahead, and the stream has nothing left to deliver. -/
theorem doEcho_reads_ahead :
    newline ∉ ([97] : List Byte) ∧ NonemptySegments exampleTwoLines ∧
    exampleTwoLines.inbound.flatten = [97] ++ newline :: [98, 10] ∧
    (doEcho exampleTwoLines).map (fun r => (r.1.received, r.1.inbound, r.1.written, r.2.2))
      = some ([97, 10, 98, 10], [], [97, 10], none) := by
  decide

/-- C4, amended: when the pending data holds a newline and every read returns
data, `doEcho` returns; the bytes it takes from the stream are the bytes up to
and including the first newline, followed by a part `over` of what comes after,
which is at most one buffer long and stays in the discarded buffered reader;
the bytes it hands to `Write` and logs are exactly the line, so that on a
successful write exactly the line is written, on a failing one a part of it,
and never a byte after the first newline. -/
theorem doEcho_one_line (s : Stream) (L rest : List Byte) (hL : newline ∉ L)
    (hne : NonemptySegments s) (hin : s.inbound.flatten = L ++ newline :: rest) :
    ∃ s1 e over tail, doEcho s = some (s1, [LogEntry.read (L ++ [newline])], e) ∧
      rest = over ++ tail ∧ over.length ≤ defaultBufSize ∧
      s1.received = s.received ++ (L ++ [newline]) ++ over ∧
      s1.written = s.written ++
        (match s.writeFault with
         | none => L ++ [newline]
         | some (k, _) => (L ++ [newline]).take k) ∧
      (e = none ↔ s.writeFault = none) := by
  obtain ⟨b1, hadv, hrest, hlen, hd⟩ := doEcho_of_line s L rest hL hne hin
  refine ⟨_, _, b1.buf, b1.rd.inbound.flatten, hd, hrest, hlen, ?_, ?_, ?_⟩
  · have hr : (b1.rd.Write (L ++ [newline])).1.received = b1.rd.received := by
      unfold Stream.Write
      cases b1.rd.writeFault with
      | none => rfl
      | some f => rfl
    rw [hr, hadv.received]
    simp only [List.append_assoc]
  · unfold Stream.Write
    rw [hadv.writeFault]
    cases s.writeFault with
    | none => simp only [hadv.written]
    | some f => simp only [hadv.written]
  · unfold Stream.Write
    rw [hadv.writeFault]
    cases s.writeFault with
    | none => simp
    | some f => simp

/-- The echo of the first of two lines that arrive together. -/
theorem doEcho_one_line_witness :
    newline ∉ ([97] : List Byte) ∧ NonemptySegments exampleTwoLines ∧
    exampleTwoLines.inbound.flatten = [97] ++ newline :: [98, 10] ∧
    ∃ s1 e over tail,
      doEcho exampleTwoLines = some (s1, [LogEntry.read ([97] ++ [newline])], e) ∧
      [98, 10] = over ++ tail ∧ over.length ≤ defaultBufSize ∧
      s1.received = exampleTwoLines.received ++ ([97] ++ [newline]) ++ over ∧
      s1.written = exampleTwoLines.written ++
        (match exampleTwoLines.writeFault with
         | none => [97] ++ [newline]
         | some (k, _) => ([97] ++ [newline]).take k) ∧
      (e = none ↔ exampleTwoLines.writeFault = none) :=
  ⟨by decide, by decide, by decide,
    doEcho_one_line exampleTwoLines [97] [98, 10] (by decide) (by decide) (by decide)⟩

/-- What `runSender` does once the target address has parsed and the stream
`s0` has been opened: it returns, leaving the stream neither closed nor reset,
and logs the error of a failed write or of a failed read. -/
theorem runSender_stream (L : Lib) (ha : Host) (targetPeer : String) (maddr : Multiaddr)
    (info : AddrInfo) (s0 : Stream) (haddr : ha.Addrs ≠ [])
    (hid : ∃ m, L.NewMultiaddr ("/p2p/" ++ L.Pretty ha.ID) = .ok m)
    (h1 : L.NewMultiaddr targetPeer = .ok maddr) (h2 : L.AddrInfoFromP2pAddr maddr = .ok info)
    (h3 : L.NewStream ((ha.SetStreamHandler "/echo/1.0.0" senderHandler).AddAddrs info.ID
      info.Addrs TTL.PermanentAddrTTL) info.ID "/echo/1.0.0" = .ok s0) :
    ∃ r s, runSender L ha targetPeer = some r ∧ r.exit = Exit.returned ∧ r.stream = some s ∧
      s.closes = s0.closes ∧ s.resets = s0.resets ∧
      (∀ k e, s0.writeFault = some (k, e) →
        Event.log (LogEntry.error (Err.ofStream e)) ∈ r.trace) ∧
      (s0.writeFault = none → (s0.Write greeting).1.readEnd ≠ StreamErr.EOF →
        Event.log (LogEntry.error (Err.ofStream (s0.Write greeting).1.readEnd)) ∈ r.trace) := by
  obtain ⟨a, hga⟩ := getHostAddress_some L ha haddr hid
  cases hwf : s0.writeFault with
  | some f =>
    obtain ⟨k, e⟩ := f
    have hW : s0.Write greeting =
        ({ s0 with written := s0.written ++ greeting.take k }, min k greeting.length, some e) := by
      simp only [Stream.Write, hwf]
    simp only [runSender, hga, h1, h2, h3, hW]
    refine ⟨_, _, rfl, rfl, rfl, rfl, rfl, ?_, ?_⟩
    · intro k1 e1 hke
      simp only [Option.some.injEq, Prod.mk.injEq] at hke
      simp [hke.2]
    · intro hn
      cases hn
  | none =>
    have hW : s0.Write greeting =
        ({ s0 with written := s0.written ++ greeting, inbound := s0.inbound ++ (s0.remote greeting).1,
                   readEnd := (s0.remote greeting).2.getD s0.readEnd }, greeting.length, none) := by
      simp only [Stream.Write, hwf]
    obtain ⟨s2, hRA, hadv, _⟩ := ReadAll_spec L.appendGrowth (s0.Write greeting).1
    simp only [hW] at hRA hadv
    by_cases hend : (s0.remote greeting).2.getD s0.readEnd = StreamErr.EOF
    · rw [if_pos hend] at hRA
      simp only [runSender, hga, h1, h2, h3, hW, hRA]
      refine ⟨_, _, rfl, rfl, rfl, hadv.closes, hadv.resets, ?_, ?_⟩
      · intro k1 e1 hke
        cases hke
      · intro _ hne
        exact absurd hend hne
    · rw [if_neg hend] at hRA
      simp only [runSender, hga, h1, h2, h3, hW, hRA]
      refine ⟨_, _, rfl, rfl, rfl, hadv.closes, hadv.resets, ?_, ?_⟩
      · intro k1 e1 hke
        cases hke
      · intro _ _
        simp

/-! ## Claims about failures -/

/-- C5, as stated, fails for the outbound stream of `runSender`: when the
greeting write fails, and likewise when the reply read fails, `runSender` logs
the error and returns, and the stream has been neither reset nor closed. -/
theorem runSender_failure_no_reset :
    (runSender exampleWriteFailNet exampleHost "/p2p/QmListener").map
        (fun r => (r.exit, r.stream.map (fun s => (s.resets, s.closes)), r.trace.getLast?))
      = some (Exit.returned, some (0, 0),
          some (Event.log (LogEntry.error (Err.ofStream (StreamErr.failure 7))))) ∧
    (runSender exampleReadFailNet exampleHost "/p2p/QmListener").map
        (fun r => (r.exit, r.stream.map (fun s => (s.resets, s.closes, s.written)),
          r.trace.getLast?))
      = some (Exit.returned, some (0, 0, greeting),
          some (Event.log (LogEntry.error (Err.ofStream (StreamErr.failure 9))))) :=
  ⟨by rfl, by rfl⟩

/-- C5, amended: a failed read or failed write inside `doEcho`, as run by either
registered handler, is logged and makes the handler reset the stream once and
not close it; on the outbound stream that `runSender` opens, a failed greeting
write or a failed reply read is logged and `runSender` returns, having called
neither `Reset` nor `Close` on that stream. -/
theorem failure_handling (L : Lib) (ha : Host) (targetPeer : String) (maddr : Multiaddr)
    (info : AddrInfo) (s0 : Stream) (haddr : ha.Addrs ≠ [])
    (hid : ∃ m, L.NewMultiaddr ("/p2p/" ++ L.Pretty ha.ID) = .ok m)
    (h1 : L.NewMultiaddr targetPeer = .ok maddr) (h2 : L.AddrInfoFromP2pAddr maddr = .ok info)
    (h3 : L.NewStream ((ha.SetStreamHandler "/echo/1.0.0" senderHandler).AddAddrs info.ID
      info.Addrs TTL.PermanentAddrTTL) info.ID "/echo/1.0.0" = .ok s0) :
    (∀ (h : StreamHandler) (s s1 : Stream) (lg : List LogEntry) (x : Err),
      h = listenerHandler ∨ h = senderHandler → doEcho s = some (s1, lg, some x) →
      ∃ s2 lg2, h s = some (s2, lg2) ∧ LogEntry.error x ∈ lg2 ∧
        s2.resets = s.resets + 1 ∧ s2.closes = s.closes) ∧
    (∃ r s, runSender L ha targetPeer = some r ∧ r.exit = Exit.returned ∧ r.stream = some s ∧
      s.closes = s0.closes ∧ s.resets = s0.resets ∧
      (∀ k e, s0.writeFault = some (k, e) →
        Event.log (LogEntry.error (Err.ofStream e)) ∈ r.trace) ∧
      (s0.writeFault = none → (s0.Write greeting).1.readEnd ≠ StreamErr.EOF →
        Event.log (LogEntry.error (Err.ofStream (s0.Write greeting).1.readEnd)) ∈ r.trace)) := by
  refine ⟨?_, runSender_stream L ha targetPeer maddr info s0 haddr hid h1 h2 h3⟩
  intro h s s1 lg x hh hd
  obtain ⟨hc, hr⟩ := doEcho_frame s s1 lg (some x) hd
  obtain ⟨lg2, hh2, hlog⟩ := handler_of_doEcho h hh s s1 lg (some x) hd
  refine ⟨_, lg2, hh2, hlog x rfl, ?_, ?_⟩
  · simp [Stream.Reset, hr]
  · simp [Stream.Reset, hc]

/-- C6: when the target address string fails to parse, as a multiaddress or as
a peer address carrying a peer identity, `runSender` (on a host with a listen
address and an identity that parses) logs the error and returns: the address book of the host is unchanged, the trace holds no
`AddAddrs` and no `NewStream` call, and there is no outbound stream on which a
greeting could have been written. -/
theorem runSender_parse_failure (L : Lib) (ha : Host) (targetPeer : String) (e : Err)
    (haddr : ha.Addrs ≠ [])
    (hid : ∃ m, L.NewMultiaddr ("/p2p/" ++ L.Pretty ha.ID) = .ok m)
    (hfail : L.NewMultiaddr targetPeer = .error e ∨
      ∃ m, L.NewMultiaddr targetPeer = .ok m ∧ L.AddrInfoFromP2pAddr m = .error e) :
    ∃ r, runSender L ha targetPeer = some r ∧ r.exit = Exit.returned ∧
      r.trace.getLast? = some (Event.log (LogEntry.error e)) ∧
      r.host.peerstore = ha.peerstore ∧ r.stream = none ∧
      (∀ ev ∈ r.trace, (∀ id addrs ttl, ev ≠ Event.AddAddrs id addrs ttl) ∧
        (∀ id pid, ev ≠ Event.NewStream id pid)) := by
  obtain ⟨a, hga⟩ := getHostAddress_some L ha haddr hid
  rcases hfail with h1 | ⟨m, h1, h2⟩
  · simp only [runSender, hga, h1]
    refine ⟨_, rfl, rfl, by simp, rfl, rfl, ?_⟩
    intro ev hev
    simp only [List.cons_append, List.nil_append, List.mem_cons, List.mem_singleton,
      List.not_mem_nil, or_false] at hev
    rcases hev with rfl | rfl | rfl <;> simp
  · simp only [runSender, hga, h1, h2]
    refine ⟨_, rfl, rfl, by simp, rfl, rfl, ?_⟩
    intro ev hev
    simp only [List.cons_append, List.nil_append, List.mem_cons, List.mem_singleton,
      List.not_mem_nil, or_false] at hev
    rcases hev with rfl | rfl | rfl <;> simp

/-- The sender on a network whose streams fail on writing. -/
theorem failure_handling_witness :
    exampleHost.Addrs ≠ [] ∧
    (∃ m, exampleWriteFailNet.NewMultiaddr ("/p2p/" ++ exampleWriteFailNet.Pretty exampleHost.ID) = .ok m) ∧
    exampleWriteFailNet.NewMultiaddr exampleTarget = .ok exampleMaddr ∧
    exampleWriteFailNet.AddrInfoFromP2pAddr exampleMaddr = .ok exampleInfo ∧
    exampleWriteFailNet.NewStream
      ((exampleHost.SetStreamHandler "/echo/1.0.0" senderHandler).AddAddrs exampleInfo.ID
        exampleInfo.Addrs TTL.PermanentAddrTTL) exampleInfo.ID "/echo/1.0.0"
      = .ok exampleFaultyStream ∧
    ((∀ (h : StreamHandler) (s s1 : Stream) (lg : List LogEntry) (x : Err),
      h = listenerHandler ∨ h = senderHandler → doEcho s = some (s1, lg, some x) →
      ∃ s2 lg2, h s = some (s2, lg2) ∧ LogEntry.error x ∈ lg2 ∧
        s2.resets = s.resets + 1 ∧ s2.closes = s.closes) ∧
    (∃ r s, runSender exampleWriteFailNet exampleHost exampleTarget = some r ∧
      r.exit = Exit.returned ∧ r.stream = some s ∧
      s.closes = exampleFaultyStream.closes ∧ s.resets = exampleFaultyStream.resets ∧
      (∀ k e, exampleFaultyStream.writeFault = some (k, e) →
        Event.log (LogEntry.error (Err.ofStream e)) ∈ r.trace) ∧
      (exampleFaultyStream.writeFault = none →
        (exampleFaultyStream.Write greeting).1.readEnd ≠ StreamErr.EOF →
        Event.log (LogEntry.error (Err.ofStream (exampleFaultyStream.Write greeting).1.readEnd))
          ∈ r.trace))) :=
  ⟨by decide, ⟨_, rfl⟩, rfl, rfl, rfl,
    failure_handling exampleWriteFailNet exampleHost exampleTarget exampleMaddr exampleInfo
      exampleFaultyStream (by decide) ⟨_, rfl⟩ rfl rfl rfl⟩

/-- The sender given the empty string as target address. -/
theorem runSender_parse_failure_witness :
    exampleHost.Addrs ≠ [] ∧
    (∃ m, exampleLib.NewMultiaddr ("/p2p/" ++ exampleLib.Pretty exampleHost.ID) = .ok m) ∧
    exampleLib.NewMultiaddr "" = .error (Err.lib 1) ∧
    ∃ r, runSender exampleLib exampleHost "" = some r ∧ r.exit = Exit.returned ∧
      r.trace.getLast? = some (Event.log (LogEntry.error (Err.lib 1))) ∧
      r.host.peerstore = exampleHost.peerstore ∧ r.stream = none ∧
      (∀ ev ∈ r.trace, (∀ id addrs ttl, ev ≠ Event.AddAddrs id addrs ttl) ∧
        (∀ id pid, ev ≠ Event.NewStream id pid)) :=
  ⟨by decide, ⟨_, rfl⟩, rfl,
    runSender_parse_failure exampleLib exampleHost "" (Err.lib 1) (by decide) ⟨_, rfl⟩
      (Or.inl rfl)⟩

/-! ## Claims about the host address -/

/-- C10, as stated, fails: a host with a listen address and the empty peer
identity has no host address: `"/p2p/"` does not parse, the program discards
the error, and `Encapsulate` is called on a nil multiaddress.  Both
`startListener` and `runSender` panic on it, although its address list is not
empty. -/
theorem getHostAddress_unparsed_identity :
    exampleHostNoID.Addrs ≠ [] ∧
    exampleLib.NewMultiaddr ("/p2p/" ++ exampleLib.Pretty exampleHostNoID.ID)
      = .error (Err.lib 1) ∧
    getHostAddress exampleLib exampleHostNoID = none ∧
    (startListener exampleLib exampleHostNoID 4001 false).exit = Exit.panicked ∧
    (runSender exampleLib exampleHostNoID exampleTarget).map (fun r => r.exit)
      = some Exit.panicked :=
  ⟨by decide, rfl, rfl, rfl, rfl⟩

/-- C10, amended: on a host with at least one listen address whose
`"/p2p/"` string with the peer identity parses, `getHostAddress` returns the
first address encapsulated with the multiaddress parsed from that string,
whatever the later addresses are; on a host without listen address (index out
of range) and on a host whose string does not parse (`Encapsulate` on a nil
multiaddress) it panics, and so do `startListener` and `runSender`, which have
then logged nothing and registered no handler. -/
theorem getHostAddress_first (L : Lib) (ha : Host) :
    (∀ addr rest m, ha.Addrs = addr :: rest →
      L.NewMultiaddr ("/p2p/" ++ L.Pretty ha.ID) = .ok m →
      getHostAddress L ha = some (L.MultiaddrString (L.Encapsulate addr m))) ∧
    ((ha.Addrs = [] ∨ ∃ e, L.NewMultiaddr ("/p2p/" ++ L.Pretty ha.ID) = .error e) →
      getHostAddress L ha = none ∧
      (∀ listenPort insecure, startListener L ha listenPort insecure
        = { exit := Exit.panicked, trace := [], host := ha, stream := none }) ∧
      (∀ targetPeer, runSender L ha targetPeer
        = some { exit := Exit.panicked, trace := [], host := ha, stream := none })) := by
  refine ⟨fun addr rest m h hm => getHostAddress_cons L ha addr rest m h hm, fun h => ?_⟩
  have hn : getHostAddress L ha = none := by
    rcases h with h | ⟨e, he⟩
    · exact getHostAddress_nil L ha h
    · exact getHostAddress_unparsed L ha e he
  refine ⟨hn, ?_, ?_⟩
  · intro listenPort insecure
    simp only [startListener, hn]
  · intro targetPeer
    simp only [runSender, hn]

/-- The host address of `exampleHost`, and the panics on `exampleHostNoAddr` and
on `exampleHostNoID`. -/
theorem getHostAddress_first_witness :
    exampleHost.Addrs = { bytes := [4, 127, 0, 0, 1] } :: [] ∧
    exampleLib.NewMultiaddr ("/p2p/" ++ exampleLib.Pretty exampleHost.ID)
      = .ok { bytes := [47, 112, 50, 112, 47, 81, 109, 69, 120, 97, 109, 112, 108, 101] } ∧
    getHostAddress exampleLib exampleHost = some (exampleLib.MultiaddrString
      (exampleLib.Encapsulate { bytes := [4, 127, 0, 0, 1] }
        { bytes := [47, 112, 50, 112, 47, 81, 109, 69, 120, 97, 109, 112, 108, 101] })) ∧
    (exampleHostNoAddr.Addrs = [] ∨
      ∃ e, exampleLib.NewMultiaddr ("/p2p/" ++ exampleLib.Pretty exampleHostNoAddr.ID)
        = .error e) ∧
    (getHostAddress exampleLib exampleHostNoAddr = none ∧
      (∀ listenPort insecure, startListener exampleLib exampleHostNoAddr listenPort insecure
        = { exit := Exit.panicked, trace := [], host := exampleHostNoAddr, stream := none }) ∧
      (∀ targetPeer, runSender exampleLib exampleHostNoAddr targetPeer
        = some { exit := Exit.panicked, trace := [], host := exampleHostNoAddr,
                 stream := none })) ∧
    (exampleHostNoID.Addrs = [] ∨
      ∃ e, exampleLib.NewMultiaddr ("/p2p/" ++ exampleLib.Pretty exampleHostNoID.ID)
        = .error e) ∧
    (getHostAddress exampleLib exampleHostNoID = none ∧
      (∀ listenPort insecure, startListener exampleLib exampleHostNoID listenPort insecure
        = { exit := Exit.panicked, trace := [], host := exampleHostNoID, stream := none }) ∧
      (∀ targetPeer, runSender exampleLib exampleHostNoID targetPeer
        = some { exit := Exit.panicked, trace := [], host := exampleHostNoID,
                 stream := none })) :=
  ⟨rfl, rfl, (getHostAddress_first exampleLib exampleHost).1 _ _ _ rfl rfl,
    Or.inl rfl, (getHostAddress_first exampleLib exampleHostNoAddr).2 (Or.inl rfl),
    Or.inr ⟨_, rfl⟩, (getHostAddress_first exampleLib exampleHostNoID).2 (Or.inr ⟨_, rfl⟩)⟩

/-! ## Claims about the identity and the command line -/

/-- C8, as stated, fails: two calls of `makeBasicHost` with the same non-zero
seed, port and flag pass different identity keys to `libp2p.New` when the key
generator drops a byte of the seeded reader in one call and not in the other,
as RSA generation decides at random. -/
theorem makeBasicHost_same_seed_differs :
    (42 : Int) ≠ 0 ∧
    (makeBasicHost exampleLib (constantReader 1) (constantChoices false) 4001 false 42).1
      = [Event.New [libp2p.Option.ListenAddrStrings ["/ip4/127.0.0.1/tcp/4001"],
          libp2p.Option.Identity { raw := [42] }, libp2p.Option.DisableRelay]] ∧
    (makeBasicHost exampleLib (constantReader 1) (constantChoices true) 4001 false 42).1
      = [Event.New [libp2p.Option.ListenAddrStrings ["/ip4/127.0.0.1/tcp/4001"],
          libp2p.Option.Identity { raw := [43] }, libp2p.Option.DisableRelay]] :=
  ⟨by decide, by rfl, by rfl⟩

/-- C8, amended: with a non-zero seed `makeBasicHost` hands the key generator
the `math/rand` reader of that seed, whatever the cryptographic random source
yields: the identity key is the one generated from that reader, and the result
(the options passed to `libp2p.New`, among them the identity key, and the host
returned) is the same for the same port, flag and seed when the random choices
of the runtime during key generation are the same.  With seed zero it hands the
generator the cryptographic random source: the `math/rand` reader plays no
role, the identity key is the one generated from that source, and two sources
from which different keys are generated give different calls of
`libp2p.New`. -/
theorem makeBasicHost_seed (L : Lib) (listenPort : Int) (insecure : Bool) (randseed : Int)
    (entropy1 entropy2 : RandReader) (choices : RuntimeChoices) :
    (randseed ≠ 0 →
      makeBasicHost L entropy1 choices listenPort insecure randseed
        = makeBasicHost L entropy2 choices listenPort insecure randseed) ∧
    (randseed ≠ 0 → ∀ priv pub,
      L.GenerateKeyPairWithReader KeyType.RSA 2048 (L.mrandNew randseed) choices
        = .ok (priv, pub) →
      ∃ opts, makeBasicHost L entropy1 choices listenPort insecure randseed
          = ([Event.New opts], L.New opts) ∧
        libp2p.Option.Identity priv ∈ opts) ∧
    (∀ mr : Int → RandReader,
      makeBasicHost L entropy1 choices listenPort insecure 0
        = makeBasicHost { L with mrandNew := mr } entropy1 choices listenPort insecure 0) ∧
    (∀ priv pub,
      L.GenerateKeyPairWithReader KeyType.RSA 2048 entropy1 choices = .ok (priv, pub) →
      ∃ opts, makeBasicHost L entropy1 choices listenPort insecure 0
          = ([Event.New opts], L.New opts) ∧
        libp2p.Option.Identity priv ∈ opts) ∧
    (∀ priv1 pub1 priv2 pub2,
      L.GenerateKeyPairWithReader KeyType.RSA 2048 entropy1 choices = .ok (priv1, pub1) →
      L.GenerateKeyPairWithReader KeyType.RSA 2048 entropy2 choices = .ok (priv2, pub2) →
      priv1 ≠ priv2 →
      (makeBasicHost L entropy1 choices listenPort insecure 0).1
        ≠ (makeBasicHost L entropy2 choices listenPort insecure 0).1) := by
  refine ⟨?_, ?_, ?_, ?_, ?_⟩
  · intro h
    simp only [makeBasicHost, h, if_false]
  · intro h priv pub hk
    cases insecure with
    | false =>
      simp only [makeBasicHost, h, if_false, hk]
      exact ⟨_, rfl, by simp⟩
    | true =>
      simp only [makeBasicHost, h, if_false, hk, if_true]
      exact ⟨_, rfl, by simp⟩
  · intro mr
    simp only [makeBasicHost, if_true]
  · intro priv pub hk
    cases insecure with
    | false =>
      simp only [makeBasicHost, hk, if_true]
      exact ⟨_, rfl, by simp⟩
    | true =>
      simp only [makeBasicHost, hk, if_true]
      exact ⟨_, rfl, by simp⟩
  · intro priv1 pub1 priv2 pub2 hk1 hk2 hne
    cases insecure with
    | false => simpa [makeBasicHost, hk1, hk2] using hne
    | true => simpa [makeBasicHost, hk1, hk2] using hne

/-- Seed 42 with two different random sources and the same choices of the
runtime, and seed zero with the same two sources. -/
theorem makeBasicHost_seed_witness :
    ((42 : Int) ≠ 0 →
      makeBasicHost exampleLib (constantReader 1) (constantChoices true) 4001 false 42
        = makeBasicHost exampleLib (constantReader 2) (constantChoices true) 4001 false 42) ∧
    (∃ opts, makeBasicHost exampleLib (constantReader 1) (constantChoices true) 4001 false 42
        = ([Event.New opts], exampleLib.New opts) ∧
      libp2p.Option.Identity { raw := [43] } ∈ opts) ∧
    (makeBasicHost exampleLib (constantReader 1) (constantChoices true) 4001 false 0).1
      ≠ (makeBasicHost exampleLib (constantReader 2) (constantChoices true) 4001 false 0).1 :=
  ⟨(makeBasicHost_seed exampleLib 4001 false 42 (constantReader 1) (constantReader 2)
      (constantChoices true)).1,
    (makeBasicHost_seed exampleLib 4001 false 42 (constantReader 1) (constantReader 2)
      (constantChoices true)).2.1 (by decide) _ { raw := [44] } rfl,
    (makeBasicHost_seed exampleLib 4001 false 0 (constantReader 1) (constantReader 2)
      (constantChoices true)).2.2.2.2 _ _ _ _ rfl rfl (by decide)⟩

/-- C9: when the listen port is absent or zero, `main` logs the diagnostic and
exits through `log.Fatal`, whatever the other flags are: no key is generated,
no host created, no handler registered, nothing dialed.  When the port is given
and the host has been created (with a listen address and an identity that
parses), `main` does not exit through `log.Fatal`: as a listener it waits, and
as a sender it returns after `runSender`, whose last action is to log the reply
or the error of the exchange (address parse, dial, write or read). -/
theorem main_fatal_only_without_port (L : Lib) (entropy : RandReader) (choices : RuntimeChoices)
    (args : Flags) :
    ((args.l = none ∨ args.l = some 0) →
      main L entropy choices args = some
        { exit := Exit.fatal,
          trace := [Event.log (LogEntry.text "Please provide a port to biend with -l")],
          host := none, stream := none }) ∧
    (∀ t ha, args.l.getD 0 ≠ 0 →
      makeBasicHost L entropy choices (args.l.getD 0) (args.insecure.getD false)
        (args.seed.getD 0) = (t, .ok ha) →
      ha.Addrs ≠ [] → (∃ m, L.NewMultiaddr ("/p2p/" ++ L.Pretty ha.ID) = .ok m) →
      (args.d.getD "" = "" →
        ∃ p, main L entropy choices args = some p ∧ p.exit = Exit.blocked) ∧
      (args.d.getD "" ≠ "" → ∃ r entry, runSender L ha (args.d.getD "") = some r ∧
        main L entropy choices args = some
          { exit := Exit.returned, trace := t ++ r.trace, host := some r.host,
            stream := r.stream } ∧
        r.trace.getLast? = some (Event.log entry) ∧
        ((∃ out, entry = LogEntry.reply out) ∨ ∃ e, entry = LogEntry.error e))) := by
  refine ⟨?_, ?_⟩
  · intro h
    rcases h with h | h <;> simp [main, h]
  · intro t ha hport hmk haddr hid
    refine ⟨?_, ?_⟩
    · intro hd
      obtain ⟨a, hga⟩ := getHostAddress_some L ha haddr hid
      simp only [main, hport, if_false, hmk, hd, if_true]
      refine ⟨_, rfl, ?_⟩
      simp [startListener, hga]
    · intro hd
      obtain ⟨r, hr, hexit, _, _, entry, hlast, hkind⟩ :=
        runSender_spec L ha (args.d.getD "") haddr hid
      refine ⟨r, entry, hr, ?_, hlast, hkind⟩
      simp only [main, hport, if_false, hmk, hd, hr, hexit]

/-- A command line without port, and a sender on port 4002. -/
theorem main_fatal_only_without_port_witness :
    (exampleFlagsNoPort.l = none ∨ exampleFlagsNoPort.l = some 0) ∧
    main exampleLib (constantReader 1) (constantChoices false) exampleFlagsNoPort = some
      { exit := Exit.fatal,
        trace := [Event.log (LogEntry.text "Please provide a port to biend with -l")],
        host := none, stream := none } ∧
    exampleFlagsSender.l.getD 0 ≠ 0 ∧ exampleFlagsSender.d.getD "" ≠ "" ∧
    exampleHost.Addrs ≠ [] ∧
    (∃ m, exampleLib.NewMultiaddr ("/p2p/" ++ exampleLib.Pretty exampleHost.ID) = .ok m) ∧
    ∃ r entry, runSender exampleLib exampleHost (exampleFlagsSender.d.getD "") = some r ∧
      main exampleLib (constantReader 1) (constantChoices false) exampleFlagsSender = some
        { exit := Exit.returned,
          trace := [Event.New [libp2p.Option.ListenAddrStrings ["/ip4/127.0.0.1/tcp/4002"],
            libp2p.Option.Identity { raw := [1] }, libp2p.Option.DisableRelay]] ++ r.trace,
          host := some r.host, stream := r.stream } ∧
      r.trace.getLast? = some (Event.log entry) ∧
      ((∃ out, entry = LogEntry.reply out) ∨ ∃ e, entry = LogEntry.error e) :=
  ⟨Or.inl rfl,
    (main_fatal_only_without_port exampleLib (constantReader 1) (constantChoices false)
      exampleFlagsNoPort).1 (Or.inl rfl),
    by decide, by decide, by decide, ⟨_, rfl⟩,
    ((main_fatal_only_without_port exampleLib (constantReader 1) (constantChoices false)
      exampleFlagsSender).2 _ exampleHost (by decide) rfl (by decide) ⟨_, rfl⟩).2 (by decide)⟩

/-! ## The exchange between a sender and a listener -/

/-- The listener handler, run on a stream on which the greeting arrives (in
segments of any sizes, each read returning data), writes the greeting back and
closes the stream. -/
theorem serve_listener_greeting (segIn segOut : List Byte → List (List Byte)) (idle : StreamErr)
    (hin : ∀ p, (segIn p).flatten = p ∧ ∀ seg ∈ segIn p, seg ≠ []) :
    serve listenerHandler segIn segOut idle greeting = (segOut greeting, some StreamErr.EOF) := by
  have hL : newline ∉ ([72, 101, 108, 108, 111, 44, 32, 119, 111, 114, 108, 100, 33] : List Byte) := by
    decide
  obtain ⟨b1, hadv, _, _, hd⟩ :=
    doEcho_of_line (freshStream (segIn greeting) idle (fun _ => ([], none)))
      [72, 101, 108, 108, 111, 44, 32, 119, 111, 114, 108, 100, 33] [] hL (hin greeting).2
      (by
        show (segIn greeting).flatten = _
        rw [(hin greeting).1]
        rfl)
  have hline : ([72, 101, 108, 108, 111, 44, 32, 119, 111, 114, 108, 100, 33] : List Byte)
      ++ [newline] = greeting := rfl
  rw [hline] at hd hadv
  have hwf : b1.rd.writeFault = none := hadv.writeFault
  have hwr : b1.rd.written = [] := hadv.written
  have hcl : b1.rd.closes = 0 := hadv.closes
  have hrs : b1.rd.resets = 0 := hadv.resets
  have hW : b1.rd.Write greeting =
      ({ b1.rd with written := b1.rd.written ++ greeting,
                    inbound := b1.rd.inbound ++ (b1.rd.remote greeting).1,
                    readEnd := (b1.rd.remote greeting).2.getD b1.rd.readEnd },
        greeting.length, none) := by
    simp only [Stream.Write, hwf]
  simp only [hW, Option.map_none] at hd
  simp only [serve, listenerHandler, hd, Stream.Close, hwr, hcl, hrs]
  simp

/-- C7: when the peer that `runSender` dials is a host on which `startListener`
has run, the network delivers what is written in segments of any sizes (each
read of the listener returning data), and no write fails, then `runSender`
opens its stream under the protocol identifier `"/echo/1.0.0"`, which is the
one under which the listener handler is registered, writes exactly the 14
bytes of `"Hello, world!\n"`, reads until the listener has closed the stream,
and the reply it has accumulated and logs is exactly those 14 bytes. -/
theorem sender_receives_echo (L : Lib) (lha sha : Host) (listenPort : Int) (insecure : Bool)
    (targetPeer : String) (maddr : Multiaddr) (info : AddrInfo)
    (segIn segOut : List Byte → List (List Byte)) (idle : StreamErr)
    (hl : lha.Addrs ≠ []) (hlid : ∃ m, L.NewMultiaddr ("/p2p/" ++ L.Pretty lha.ID) = .ok m)
    (hs : sha.Addrs ≠ []) (hsid : ∃ m, L.NewMultiaddr ("/p2p/" ++ L.Pretty sha.ID) = .ok m)
    (h1 : L.NewMultiaddr targetPeer = .ok maddr) (h2 : L.AddrInfoFromP2pAddr maddr = .ok info)
    (hin : ∀ p, (segIn p).flatten = p ∧ ∀ seg ∈ segIn p, seg ≠ [])
    (hout : ∀ p, (segOut p).flatten = p)
    (hnet : ∀ h pid, L.NewStream h info.ID pid
      = dial (startListener L lha listenPort insecure).host segIn segOut idle pid) :
    (startListener L lha listenPort insecure).host.handlers.lookup "/echo/1.0.0"
      = some listenerHandler ∧
    Event.SetStreamHandler "/echo/1.0.0" ∈ (startListener L lha listenPort insecure).trace ∧
    ∃ r s, runSender L sha targetPeer = some r ∧ r.exit = Exit.returned ∧
      Event.NewStream info.ID "/echo/1.0.0" ∈ r.trace ∧
      r.stream = some s ∧ s.written = greeting ∧ greeting.length = 14 ∧
      s.received = greeting ∧ s.inbound = [] ∧ s.readEnd = StreamErr.EOF ∧
      r.trace.getLast? = some (Event.log (LogEntry.reply greeting)) := by
  obtain ⟨la, hlga⟩ := getHostAddress_some L lha hl hlid
  obtain ⟨sa, hsga⟩ := getHostAddress_some L sha hs hsid
  have hlook : (startListener L lha listenPort insecure).host.handlers.lookup "/echo/1.0.0"
      = some listenerHandler := by
    simp only [startListener, hlga, lookup_SetStreamHandler]
  refine ⟨hlook, by simp [startListener, hlga], ?_⟩
  have h3 : L.NewStream ((sha.SetStreamHandler "/echo/1.0.0" senderHandler).AddAddrs info.ID
      info.Addrs TTL.PermanentAddrTTL) info.ID "/echo/1.0.0"
      = .ok (freshStream [] idle (serve listenerHandler segIn segOut idle)) := by
    rw [hnet]
    simp only [dial, hlook]
  have hW : (freshStream [] idle (serve listenerHandler segIn segOut idle)).Write greeting =
      ({ inbound := [] ++ segOut greeting, readEnd := StreamErr.EOF, writeFault := none,
         remote := serve listenerHandler segIn segOut idle, written := [] ++ greeting,
         received := [], closes := 0, resets := 0 }, greeting.length, none) := by
    simp only [Stream.Write, freshStream, serve_listener_greeting segIn segOut idle hin,
      Option.getD_some]
  obtain ⟨s2, hRA, hadv, hin2⟩ := ReadAll_spec L.appendGrowth
    { inbound := [] ++ segOut greeting, readEnd := StreamErr.EOF, writeFault := none,
      remote := serve listenerHandler segIn segOut idle, written := [] ++ greeting,
      received := [], closes := 0, resets := 0 }
  simp only [List.nil_append, hout, if_true] at hRA hadv
  simp only [runSender, hsga, h1, h2, h3, hW, List.nil_append, hRA]
  refine ⟨_, s2, rfl, rfl, by simp, rfl, hadv.written, rfl, ?_, hin2, hadv.readEnd, by simp⟩
  simpa using hadv.received

/-- The sender dialing a listener started on `exampleHost`. -/
theorem sender_receives_echo_witness :
    exampleHost.Addrs ≠ [] ∧
    (∃ m, exampleNet.NewMultiaddr ("/p2p/" ++ exampleNet.Pretty exampleHost.ID) = .ok m) ∧
    exampleNet.NewMultiaddr exampleTarget = .ok exampleMaddr ∧
    exampleNet.AddrInfoFromP2pAddr exampleMaddr = .ok exampleInfo ∧
    (∀ p, (byteSegments p).flatten = p ∧ ∀ seg ∈ byteSegments p, seg ≠ []) ∧
    (∀ p, (oneSegment p).flatten = p) ∧
    (∀ h pid, exampleNet.NewStream h exampleInfo.ID pid
      = dial (startListener exampleNet exampleHost 4001 false).host byteSegments oneSegment
          (StreamErr.failure 1) pid) ∧
    ((startListener exampleNet exampleHost 4001 false).host.handlers.lookup "/echo/1.0.0"
      = some listenerHandler ∧
    Event.SetStreamHandler "/echo/1.0.0" ∈ (startListener exampleNet exampleHost 4001 false).trace ∧
    ∃ r s, runSender exampleNet exampleHost exampleTarget = some r ∧ r.exit = Exit.returned ∧
      Event.NewStream exampleInfo.ID "/echo/1.0.0" ∈ r.trace ∧
      r.stream = some s ∧ s.written = greeting ∧ greeting.length = 14 ∧
      s.received = greeting ∧ s.inbound = [] ∧ s.readEnd = StreamErr.EOF ∧
      r.trace.getLast? = some (Event.log (LogEntry.reply greeting))) :=
  ⟨by decide, ⟨_, rfl⟩, rfl, rfl, fun p => ⟨byteSegments_flatten p, byteSegments_nonempty p⟩,
    oneSegment_flatten, fun _ _ => rfl,
    sender_receives_echo exampleNet exampleHost exampleHost 4001 false exampleTarget exampleMaddr
      exampleInfo byteSegments oneSegment (StreamErr.failure 1) (by decide) ⟨_, rfl⟩ (by decide)
      ⟨_, rfl⟩ rfl rfl
      (fun p => ⟨byteSegments_flatten p, byteSegments_nonempty p⟩) oneSegment_flatten
      (fun _ _ => rfl)⟩

end Echo
